import Mathlib

/-!
Verification of the VLESS database user cache and validator layer.

This file gives a shallow embedding of the Go sources:
  proxy/vless/database/cache/lru.go      (LRUManager)
  proxy/vless/database/cache/cache.go    (Cache)
  proxy/vless/database/validator.go      (Validator)
  proxy/vless/database/storage.go        (UserStorage contract)

Go maps are modelled as association lists built exclusively by
`aset`/`aerase` (so keys stay unique, as in a real Go map); Go pointers to
LRU nodes are modelled by an arena of nodes addressed by `Nat` handles,
with a fresh-handle counter; `time.Time` instants are modelled as `Nat`
and every time-consulting operation takes the current instant `now` as an
explicit argument (`time.Now().After(t)` becomes `now > t`).
-/

section AssocList

variable {κ : Type} {α : Type} [DecidableEq κ]

/-- Lookup in an association list (models Go map read `m[k]`). -/
def alookup : List (κ × α) → κ → Option α
  | [], _ => none
  | (k, v) :: l, k' => if k' = k then some v else alookup l k'

/-- Insert-or-replace in an association list (models Go map write `m[k] = v`).
Replaces the first binding of the key in place, otherwise appends. -/
def aset : List (κ × α) → κ → α → List (κ × α)
  | [], k, v => [(k, v)]
  | (k0, v0) :: l, k, v => if k = k0 then (k, v) :: l else (k0, v0) :: aset l k v

/-- Delete from an association list (models Go `delete(m, k)`). -/
def aerase : List (κ × α) → κ → List (κ × α)
  | [], _ => []
  | (k0, v0) :: l, k => if k = k0 then aerase l k else (k0, v0) :: aerase l k

/-- Pointwise update of the binding of key `k` (models an in-place mutation
of the object a Go map value points at). -/
def aupd (l : List (κ × α)) (k : κ) (f : α → α) : List (κ × α) :=
  l.map (fun p => if p.1 = k then (p.1, f p.2) else p)

end AssocList

/-! ## Data model

A `MemoryUser` (protocol.MemoryUser) carries an email alias and an opaque
account payload. Only the VLESS account kind exposes a primary identifier
(the UUID of `vless.MemoryAccount.ID`, canonically rendered as a string);
every other account kind is opaque to this layer (the Go type assertion
`user.Account.(*vless.MemoryAccount)` fails on it). -/

inductive Account where
  | vless (uuid : String) (flow : String)
  | other
deriving DecidableEq, Repr

structure MemoryUser where
  email : String
  account : Account
deriving DecidableEq, Repr

/-- Error classification of the Storage contract (see sql_storage.go /
sql_drivers.go): not-found, connection failure, duplicate key, generic
query failure, plus the Validator-level validation error
("not a VLESS user"). -/
inductive SErr where
  | notFound
  | connection
  | duplicateKey
  | query
  | validation
deriving DecidableEq, Repr

/-! ## LRU manager (cache/lru.go)

Go `*LRUNode` pointers are modelled by `Nat` handles into the `nodes`
arena; `fresh` is the next unallocated handle (a newly allocated Go node
object is distinct from every live object). The arena entry of a node is
never discarded (the Go object stays alive while referenced); removal
only unlinks it. -/

structure LRUNodeData where
  key : String
  prev : Option Nat
  next : Option Nat
deriving DecidableEq, Repr

structure LRUManager where
  head : Option Nat
  tail : Option Nat
  nodes : List (Nat × LRUNodeData)
  nodeMap : List (String × Nat)
  fresh : Nat
deriving DecidableEq, Repr

namespace LRUManager

/-- NewLRUManager. -/
def new : LRUManager :=
  { head := none, tail := none, nodes := [], nodeMap := [], fresh := 0 }

/-- Add adds a new node to the beginning of the LRU list
(lru.go, `Add`). Returns the new manager and the handle of the new node
(Go returns the `*LRUNode`; allocation hands out the next fresh handle,
mirroring that a new Go object is distinct from every live one). -/
def add (lru : LRUManager) (key : String) : LRUManager × Nat :=
  let nid := lru.fresh
  match lru.head with
  | none =>
    ({ head := some nid, tail := some nid,
       nodes := aset lru.nodes nid { key := key, prev := none, next := none },
       nodeMap := aset lru.nodeMap key nid, fresh := nid + 1 }, nid)
  | some h =>
    let nodes1 := aset lru.nodes nid { key := key, prev := none, next := some h }
    let nodes2 := aupd nodes1 h (fun d => { d with prev := some nid })
    ({ head := some nid, tail := lru.tail, nodes := nodes2,
       nodeMap := aset lru.nodeMap key nid, fresh := nid + 1 }, nid)

/-- Remove detaches a node from the list and deletes its key from the
lookup map (lru.go, `Remove`). A `none` handle is a no-op (Go tolerates a
nil node); a handle with no arena entry cannot arise from the public
operations and is treated as a no-op. -/
def remove (lru : LRUManager) (n : Option Nat) : LRUManager :=
  match n with
  | none => lru
  | some nid =>
    match alookup lru.nodes nid with
    | none => lru
    | some nd =>
      let head1 := if lru.head = some nid then nd.next else lru.head
      let tail1 := if lru.tail = some nid then nd.prev else lru.tail
      let nodes1 := match nd.prev with
        | some p => aupd lru.nodes p (fun d => { d with next := nd.next })
        | none => lru.nodes
      let nd2 := (alookup nodes1 nid).getD nd
      let nodes2 := match nd2.next with
        | some nx => aupd nodes1 nx (fun d => { d with prev := nd2.prev })
        | none => nodes1
      { lru with head := head1, tail := tail1, nodes := nodes2,
                 nodeMap := aerase lru.nodeMap nd.key }

/-- MoveToFront moves an existing node to the beginning of the LRU list
(lru.go, `MoveToFront`). Note that it delegates to `remove`, which also
deletes the node's entry from `nodeMap`, and never re-inserts that entry. -/
def moveToFront (lru : LRUManager) (nid : Nat) : LRUManager :=
  if lru.head = some nid then lru
  else
    let lru1 := lru.remove (some nid)
    let nodes1 := aupd lru1.nodes nid (fun d => { d with prev := none, next := lru1.head })
    let nodes2 := match lru1.head with
      | some h => aupd nodes1 h (fun d => { d with prev := some nid })
      | none => nodes1
    { lru1 with head := some nid, nodes := nodes2 }

/-- RemoveTail removes the last node from the LRU list (lru.go). -/
def removeTail (lru : LRUManager) : LRUManager :=
  match lru.tail with
  | none => lru
  | some t => lru.remove (some t)

/-- GetNode returns a node handle by key (lru.go, `GetNode`). -/
def getNode (lru : LRUManager) (key : String) : Option Nat :=
  alookup lru.nodeMap key

/-- Handles of the nodes linked in the list, walking `next` pointers from
`head`; the fuel bounds the walk so the function is total even on states
no operation sequence can produce. -/
def walkIds (nodes : List (Nat × LRUNodeData)) : Nat → Option Nat → List Nat
  | 0, _ => []
  | _, none => []
  | fuel + 1, some i =>
    i :: walkIds nodes fuel ((alookup nodes i).bind (fun d => d.next))

/-- The keys currently linked in the list, in order from head to tail. -/
def linkedIds (lru : LRUManager) : List Nat :=
  walkIds lru.nodes (lru.nodes.length + 1) lru.head

end LRUManager

/-! ## Cache (cache/cache.go)

`User` (the entry struct) wraps a `MemoryUser` with an absolute expiry
instant and the handle of its LRU node. Both maps hold the same entry;
entries are never mutated after insertion, so holding the entry by value
in both maps is observationally equal to the Go sharing of one `*User`. -/

structure UserEntry where
  user : MemoryUser
  expiresAt : Nat
  lruNode : Option Nat
deriving DecidableEq, Repr

structure Cache where
  usersByID : List (String × UserEntry)
  usersByEmail : List (String × UserEntry)
  lru : LRUManager
  ttl : Nat
  maxSize : Int
deriving DecidableEq, Repr

namespace Cache

/-- NewCache (cache.go). -/
def mkNew (ttl : Nat) (maxSize : Int) : Cache :=
  { usersByID := [], usersByEmail := [], lru := LRUManager.new,
    ttl := ttl, maxSize := maxSize }

/-- Get (cache.go): look up by primary identifier; lazily expire when
`time.Now().After(ExpiresAt)`, i.e. `now > expiresAt`; otherwise promote
the entry's LRU node and return the record. Returns the Go result pair as
an `Option` together with the post-state. -/
def get (c : Cache) (now : Nat) (id : String) : Option MemoryUser × Cache :=
  match alookup c.usersByID id with
  | none => (none, c)
  | some e =>
    if now > e.expiresAt then
      let lru1 := c.lru.remove e.lruNode
      (none, { c with usersByID := aerase c.usersByID id,
                      usersByEmail := aerase c.usersByEmail e.user.email,
                      lru := lru1 })
    else
      let lru1 := match e.lruNode with
        | some nid => c.lru.moveToFront nid
        | none => c.lru
      (some e.user, { c with lru := lru1 })

/-- GetByEmail (cache.go): look up by alias; the LRU key and the
companion primary-map key are derived from the record's VLESS account
UUID; a record whose account is not a VLESS account yields not-found. -/
def getByEmail (c : Cache) (now : Nat) (email : String) : Option MemoryUser × Cache :=
  match alookup c.usersByEmail email with
  | none => (none, c)
  | some e =>
    match e.user.account with
    | Account.other => (none, c)
    | Account.vless uuid _flow =>
      if now > e.expiresAt then
        let lru1 := c.lru.remove (c.lru.getNode uuid)
        (none, { c with usersByEmail := aerase c.usersByEmail email,
                        usersByID := aerase c.usersByID uuid,
                        lru := lru1 })
      else
        let lru1 := match c.lru.getNode uuid with
          | some nid => c.lru.moveToFront nid
          | none => c.lru
        (some e.user, { c with lru := lru1 })

/-- The eviction step at the top of Set (cache.go): when the configured
maximum size is positive and the by-identifier map has reached it, remove
the entry of the current LRU tail from both maps and drop the tail node. -/
def evictIfFull (c : Cache) : Cache :=
  if c.maxSize > 0 ∧ (c.usersByID.length : Int) ≥ c.maxSize then
    match c.lru.tail with
    | none => c
    | some tid =>
      match alookup c.lru.nodes tid with
      | none => c
      | some nd =>
        match alookup c.usersByID nd.key with
        | none => c
        | some e =>
          { c with usersByID := aerase c.usersByID nd.key,
                   usersByEmail := aerase c.usersByEmail e.user.email,
                   lru := c.lru.removeTail }
  else c

/-- Set (cache.go): evict if at capacity, then insert/overwrite the entry
under the given identifier and under the record's email, with expiry
`now + ttl`, registering a fresh LRU node keyed by the identifier. -/
def set (c : Cache) (now : Nat) (id : String) (u : MemoryUser) : Cache :=
  let c1 := c.evictIfFull
  let an := c1.lru.add id
  let e : UserEntry := { user := u, expiresAt := now + c1.ttl, lruNode := some an.2 }
  { c1 with usersByID := aset c1.usersByID id e,
            usersByEmail := aset c1.usersByEmail u.email e,
            lru := an.1 }

/-- Delete (cache.go). -/
def delete (c : Cache) (id : String) : Cache :=
  match alookup c.usersByID id with
  | none => c
  | some e =>
    { c with usersByID := aerase c.usersByID id,
             usersByEmail := aerase c.usersByEmail e.user.email,
             lru := c.lru.remove e.lruNode }

/-- DeleteByEmail (cache.go): resolve the companion primary key from the
record's VLESS account UUID; for a non-VLESS account fall back to a
linear scan of the primary map for the first entry with this email (the
Go `range` order over a map is unspecified; the model fixes list order). -/
def deleteByEmail (c : Cache) (email : String) : Cache :=
  match alookup c.usersByEmail email with
  | none => c
  | some e =>
    let byEmail1 := aerase c.usersByEmail email
    let byID1 := match e.user.account with
      | Account.vless uuid _flow => aerase c.usersByID uuid
      | Account.other =>
        match c.usersByID.find? (fun p => p.2.user.email == email) with
        | some p => aerase c.usersByID p.1
        | none => c.usersByID
    { c with usersByEmail := byEmail1, usersByID := byID1,
             lru := c.lru.remove e.lruNode }

/-- GetAll (cache.go): snapshot of the currently non-expired entries
(`!time.Now().After(ExpiresAt)`, i.e. `now ≤ expiresAt`); read-only. -/
def getAll (c : Cache) (now : Nat) : List MemoryUser :=
  (c.usersByID.filter (fun p => now ≤ p.2.expiresAt)).map (fun p => p.2.user)

/-- GetCount (cache.go): count of the currently non-expired entries. -/
def getCount (c : Cache) (now : Nat) : Int :=
  ((c.usersByID.filter (fun p => now ≤ p.2.expiresAt)).length : Int)

/-- Clear (cache.go). -/
def clear (c : Cache) : Cache :=
  { c with usersByID := [], usersByEmail := [], lru := LRUManager.new }

end Cache

/-! ## Validator (validator.go) and the Storage contract (storage.go)

The external `UserStorage` collaborator is modelled as a behaviour: a
family of response functions, one per contract method, each returning the
Go result pair `(value, error)`. The Validator model threads the cache
state and also returns the list of Storage calls it performed, so that
"no Storage mutation" is directly observable. The primary identifier
`uuid.UUID` is modelled by its canonical string rendering, which is the
only form this layer uses. -/

structure StorageBehavior where
  getUserByID : String → Option MemoryUser × Option SErr
  getUserByEmail : String → Option MemoryUser × Option SErr
  addUser : MemoryUser → Option SErr
  delUser : String → Option SErr

inductive StorageCall where
  | addUser (u : MemoryUser)
  | getUserByID (id : String)
  | getUserByEmail (email : String)
  | delUser (email : String)
deriving DecidableEq, Repr

/-- Validator state: at most one cache (present iff caching configured);
the Storage handle is passed to each operation as a behaviour. -/
structure Validator where
  cache : Option Cache
deriving DecidableEq, Repr

namespace Validator

/-- Validator.Add (validator.go): reject a record whose account payload
is not a VLESS account before any Storage contact; otherwise call
Storage.AddUser and propagate its error unchanged; on success, with
caching enabled, write through to the cache keyed by the account UUID. -/
def add (sb : StorageBehavior) (now : Nat) (v : Validator) (u : MemoryUser) :
    Option SErr × Validator × List StorageCall :=
  match u.account with
  | Account.other => (some SErr.validation, v, [])
  | Account.vless uuid _flow =>
    match sb.addUser u with
    | some e => (some e, v, [StorageCall.addUser u])
    | none =>
      match v.cache with
      | none => (none, v, [StorageCall.addUser u])
      | some c =>
        (none, { cache := some (c.set now uuid u) }, [StorageCall.addUser u])

/-- Validator.Get (validator.go): consult the cache first when enabled;
on miss fall back to Storage.GetUserByID; any Storage error yields nil;
a non-nil Storage record is backfilled into the cache under the queried
identifier before returning. -/
def get (sb : StorageBehavior) (now : Nat) (v : Validator) (id : String) :
    Option MemoryUser × Validator × List StorageCall :=
  match v.cache with
  | some c =>
    match c.get now id with
    | (some u, c1) => (some u, { cache := some c1 }, [])
    | (none, c1) =>
      match sb.getUserByID id with
      | (_, some _) => (none, { cache := some c1 }, [StorageCall.getUserByID id])
      | (some u, none) =>
        (some u, { cache := some (c1.set now id u) }, [StorageCall.getUserByID id])
      | (none, none) => (none, { cache := some c1 }, [StorageCall.getUserByID id])
  | none =>
    match sb.getUserByID id with
    | (_, some _) => (none, v, [StorageCall.getUserByID id])
    | (u?, none) => (u?, v, [StorageCall.getUserByID id])

/-- Validator.GetByEmail (validator.go): like Get but keyed by alias; a
Storage hit is backfilled under the UUID extracted from the record's
VLESS account, and the backfill is skipped when the account payload is
not a VLESS account. -/
def getByEmail (sb : StorageBehavior) (now : Nat) (v : Validator) (email : String) :
    Option MemoryUser × Validator × List StorageCall :=
  match v.cache with
  | some c =>
    match c.getByEmail now email with
    | (some u, c1) => (some u, { cache := some c1 }, [])
    | (none, c1) =>
      match sb.getUserByEmail email with
      | (_, some _) =>
        (none, { cache := some c1 }, [StorageCall.getUserByEmail email])
      | (some u, none) =>
        match u.account with
        | Account.vless uuid _flow =>
          (some u, { cache := some (c1.set now uuid u) },
           [StorageCall.getUserByEmail email])
        | Account.other =>
          (some u, { cache := some c1 }, [StorageCall.getUserByEmail email])
      | (none, none) =>
        (none, { cache := some c1 }, [StorageCall.getUserByEmail email])
  | none =>
    match sb.getUserByEmail email with
    | (_, some _) => (none, v, [StorageCall.getUserByEmail email])
    | (u?, none) => (u?, v, [StorageCall.getUserByEmail email])

/-- Validator.Del (validator.go): Storage.DelUser first, error propagated
unchanged without cache mutation; on success invalidate via the alias. -/
def del (sb : StorageBehavior) (v : Validator) (email : String) :
    Option SErr × Validator × List StorageCall :=
  match sb.delUser email with
  | some e => (some e, v, [StorageCall.delUser email])
  | none =>
    match v.cache with
    | none => (none, v, [StorageCall.delUser email])
    | some c =>
      (none, { cache := some (c.deleteByEmail email) }, [StorageCall.delUser email])

/-- The page a Storage holding the record list `all` serves for
`GetUsers(offset, limit)` (sql_storage.go: SELECT with OFFSET/LIMIT). -/
def storagePage (all : List MemoryUser) (offset limit : Nat) : List MemoryUser :=
  (all.drop offset).take limit

/-- The pagination loop of Validator.GetAll (validator.go) on the no-cache
path, run against a Storage holding `all` whose `GetUsers` call fails with
the given error exactly at the offsets where `failAt` is `some`: pages of
fixed size 100 starting at `offset`; any page error makes the whole call
return nil; an empty page or a short page ends the loop; pages are
accumulated in order. -/
def getAllLoop (all : List MemoryUser) (failAt : Nat → Option SErr) (offset : Nat) :
    Option (List MemoryUser) :=
  match failAt offset with
  | some _ => none
  | none =>
    if h1 : (storagePage all offset 100).length = 0 then some []
    else if h2 : (storagePage all offset 100).length < 100 then
      some (storagePage all offset 100)
    else
      (getAllLoop all failAt (offset + 100)).map
        (fun rest => storagePage all offset 100 ++ rest)
termination_by all.length - offset
decreasing_by
  simp only [storagePage, List.length_take, List.length_drop] at h2
  omega

/-- Validator.GetAll (validator.go) with caching disabled: paginate from
offset 0. (With caching enabled GetAll returns the cache snapshot only.) -/
def getAllNoCache (all : List MemoryUser) (failAt : Nat → Option SErr) :
    Option (List MemoryUser) :=
  getAllLoop all failAt 0

end Validator

/-! ## Derived definitions used by the claims -/

/-- Folding Cache.Set over a list of (identifier, record) pairs, all at
the same instant: the insertion sequence of the capacity-bound claim. -/
def insertAll (c : Cache) (now : Nat) (ps : List (String × MemoryUser)) : Cache :=
  ps.foldl (fun acc p => acc.set now p.1 p.2) c

/-- A store of `n` pairwise distinct VLESS user records. -/
def mkUsers (n : Nat) : List MemoryUser :=
  (List.range n).map (fun i => { email := toString i, account := Account.vless (toString i) "" })

/-- The failure pattern of a Storage whose GetUsers call errs exactly at
offset 100. -/
def failAt100 (off : Nat) : Option SErr :=
  if off = 100 then some SErr.connection else none

/-- Characterisation of the cache state reached by inserting the pairwise
distinct records `ps` (at instant `now`, TTL `ttl`, maximum size `m > 0`)
into a fresh cache, in insertion order: the residents are exactly the last
`min ps.length m` inserts, the LRU list links them newest (insert index
`ps.length - 1`, the head) to oldest (insert index `ps.length - m`,
truncated at 0, the tail), the arena handle of the j-th insert is `j`,
and every resident entry carries expiry `now + ttl` and its own handle. -/
structure SeqInv (now ttl m : Nat) (ps : List (String × MemoryUser)) (c : Cache) : Prop where
  httl : c.ttl = ttl
  hmax : c.maxSize = (m : Int)
  hm : 0 < m
  hlen : c.usersByID.length = min ps.length m
  hnodup : (c.usersByID.map Prod.fst).Nodup
  hexp : ∀ p ∈ c.usersByID, p.2.expiresAt = now + ttl
  hres : ∀ j pj, ps.get? j = some pj → ps.length - m ≤ j →
    alookup c.usersByID pj.1 = some { user := pj.2, expiresAt := now + ttl, lruNode := some j }
  hgone : ∀ j pj, ps.get? j = some pj → j < ps.length - m →
    alookup c.usersByID pj.1 = none
  habs : ∀ i, i ∉ ps.map Prod.fst → alookup c.usersByID i = none
  hfresh : c.lru.fresh = ps.length
  hhead : c.lru.head = if ps.length = 0 then none else some (ps.length - 1)
  htail : c.lru.tail = if ps.length = 0 then none else some (ps.length - m)
  hnode : ∀ j pj, ps.get? j = some pj → ps.length - m ≤ j →
    alookup c.lru.nodes j = some
      { key := pj.1,
        prev := if j + 1 = ps.length then none else some (j + 1),
        next := if j = ps.length - m then none else some (j - 1) }
  hnodehi : ∀ j, ps.length ≤ j → alookup c.lru.nodes j = none

/-! ### Concrete scenario states

Users and operation sequences used to evaluate the code on explicit
inputs. `uA "a" "e1"` abbreviates a VLESS record with UUID string "a"
and email "e1". -/

/-- A VLESS user record with the given UUID string and email. -/
def vuser (uuid email : String) : MemoryUser :=
  { email := email, account := Account.vless uuid "" }

/-- A user record whose account payload is not a VLESS account. -/
def ouser (email : String) : MemoryUser :=
  { email := email, account := Account.other }

/-- Scenario for the recency-unification claim: two records inserted,
both promoted through Get (which, through MoveToFront, strips their
nodeMap entries), then the first record touched through GetByEmail, then
a third record inserted into the full (maxSize 2) cache. -/
def c4_afterSets : Cache :=
  ((Cache.mkNew 100 2).set 0 "a" (vuser "a" "e1")).set 0 "b" (vuser "b" "e2")

def c4_afterGets : Cache :=
  (((c4_afterSets.get 0 "a").2).get 0 "b").2

def c4_afterTouch : Option MemoryUser × Cache :=
  c4_afterGets.getByEmail 0 "e1"

def c4_final : Cache :=
  (c4_afterTouch.2).set 0 "c" (vuser "c" "e3")

/-- Scenario for the LRU-index invariant claim: two keys added, then the
older node moved to the front. -/
def lru5_a1 : LRUManager × Nat := LRUManager.new.add "k1"
def lru5_a2 : LRUManager × Nat := lru5_a1.1.add "k2"
def lru5_final : LRUManager := lru5_a2.1.moveToFront lru5_a1.2

/-- Scenario for the dual-index consistency claim: two records inserted
with TTL 10, both promoted through Get, then — after both expired — the
first record looked up through GetByEmail, whose expiry path fetches the
LRU node through the (already stripped) nodeMap. -/
def c6_afterSets : Cache :=
  ((Cache.mkNew 10 100).set 0 "a" (vuser "a" "e1")).set 0 "b" (vuser "b" "e2")

def c6_afterGets : Cache :=
  (((c6_afterSets.get 0 "a").2).get 0 "b").2

def c6_final : Cache :=
  (c6_afterGets.getByEmail 20 "e1").2

/-- A Storage behaviour that always returns (nil, nil): the record is
absent and no error is reported. -/
def sbNilNil : StorageBehavior :=
  { getUserByID := fun _ => (none, none),
    getUserByEmail := fun _ => (none, none),
    addUser := fun _ => none,
    delUser := fun _ => none }

/-- A cache holding one VLESS record "a" inserted at instant 0 with TTL 10,
used (at instant 20, when the record has expired) for the nil-record claim. -/
def c10_start : Cache := (Cache.mkNew 10 100).set 0 "a" (vuser "a" "e1")

/-- Three distinct VLESS records, the insertion sequence of the
capacity-bound witness. -/
def c3ps : List (String × MemoryUser) :=
  [("a", vuser "a" "e1"), ("b", vuser "b" "e2"), ("c", vuser "c" "e3")]

/-! ## Association-list lemmas -/

section AssocLemmas

variable {κ : Type} {α : Type} [DecidableEq κ]

@[simp] theorem alookup_nil (k : κ) : alookup ([] : List (κ × α)) k = none := rfl

@[simp] theorem alookup_cons (k0 : κ) (v0 : α) (l : List (κ × α)) (k : κ) :
    alookup ((k0, v0) :: l) k = if k = k0 then some v0 else alookup l k := rfl

@[simp] theorem alookup_aset_self (l : List (κ × α)) (k : κ) (v : α) :
    alookup (aset l k v) k = some v := by
  induction l with
  | nil => simp [aset]
  | cons p l ih =>
    obtain ⟨k0, v0⟩ := p
    by_cases h : k = k0 <;> simp [aset, h, ih]

theorem alookup_aset_ne (l : List (κ × α)) (k k' : κ) (v : α) (h : k' ≠ k) :
    alookup (aset l k v) k' = alookup l k' := by
  induction l with
  | nil => simp [aset, h]
  | cons p l ih =>
    obtain ⟨k0, v0⟩ := p
    by_cases h0 : k = k0
    · subst h0; simp [aset, h]
    · by_cases h1 : k' = k0 <;> simp [aset, h0, h1, ih]

@[simp] theorem alookup_aerase_self (l : List (κ × α)) (k : κ) :
    alookup (aerase l k) k = none := by
  induction l with
  | nil => simp [aerase]
  | cons p l ih =>
    obtain ⟨k0, v0⟩ := p
    by_cases h : k = k0
    · subst h; simp [aerase, ih]
    · simp [aerase, h, ih]

theorem alookup_aerase_ne (l : List (κ × α)) (k k' : κ) (h : k' ≠ k) :
    alookup (aerase l k) k' = alookup l k' := by
  induction l with
  | nil => simp [aerase]
  | cons p l ih =>
    obtain ⟨k0, v0⟩ := p
    by_cases h0 : k = k0
    · subst h0; simp [aerase, h, ih]
    · by_cases h1 : k' = k0 <;> simp [aerase, h0, h1, ih]

theorem alookup_aupd (l : List (κ × α)) (k : κ) (f : α → α) (k' : κ) :
    alookup (aupd l k f) k' =
      if k' = k then (alookup l k).map f else alookup l k' := by
  induction l with
  | nil => simp [aupd]
  | cons p l ih =>
    obtain ⟨k0, v0⟩ := p
    simp only [aupd, List.map_cons] at ih ⊢
    by_cases h0 : k0 = k
    · subst h0
      by_cases h1 : k' = k0 <;> simp [h1, ih]
    · have hk0 : ¬k = k0 := fun hh => h0 hh.symm
      by_cases h1 : k' = k0
      · subst h1
        simp [h0, hk0]
      · by_cases h2 : k' = k
        · subst h2
          simp [h0, h1, ih]
        · simp [h0, h1, h2, ih]

theorem alookup_eq_none_of_not_mem (l : List (κ × α)) (k : κ)
    (h : k ∉ l.map Prod.fst) : alookup l k = none := by
  induction l with
  | nil => rfl
  | cons p l ih =>
    obtain ⟨k0, v0⟩ := p
    simp only [List.map_cons, List.mem_cons] at h
    push_neg at h
    simp [alookup_cons, h.1, ih h.2]

theorem mem_map_fst_of_alookup (l : List (κ × α)) (k : κ)
    (h : alookup l k ≠ none) : k ∈ l.map Prod.fst := by
  by_contra hmem
  exact h (alookup_eq_none_of_not_mem l k hmem)

theorem aset_eq_append_of_not_mem (l : List (κ × α)) (k : κ) (v : α)
    (h : k ∉ l.map Prod.fst) : aset l k v = l ++ [(k, v)] := by
  induction l with
  | nil => rfl
  | cons p l ih =>
    obtain ⟨k0, v0⟩ := p
    simp only [List.map_cons, List.mem_cons] at h
    push_neg at h
    simp [aset, h.1, ih h.2]

theorem length_aset_of_not_mem (l : List (κ × α)) (k : κ) (v : α)
    (h : k ∉ l.map Prod.fst) : (aset l k v).length = l.length + 1 := by
  rw [aset_eq_append_of_not_mem l k v h]; simp

theorem map_fst_aset_of_not_mem (l : List (κ × α)) (k : κ) (v : α)
    (h : k ∉ l.map Prod.fst) :
    (aset l k v).map Prod.fst = l.map Prod.fst ++ [k] := by
  rw [aset_eq_append_of_not_mem l k v h]; simp

theorem map_fst_aerase_sublist (l : List (κ × α)) (k : κ) :
    ((aerase l k).map Prod.fst).Sublist (l.map Prod.fst) := by
  induction l with
  | nil => simp [aerase]
  | cons p l ih =>
    obtain ⟨k0, v0⟩ := p
    by_cases h : k = k0
    · simp only [aerase, if_pos h]
      exact ih.trans (List.sublist_cons_self _ _)
    · simp only [aerase, if_neg h, List.map_cons]
      exact ih.cons₂ _

theorem nodup_aerase (l : List (κ × α)) (k : κ)
    (h : (l.map Prod.fst).Nodup) : ((aerase l k).map Prod.fst).Nodup :=
  (map_fst_aerase_sublist l k).nodup h

theorem aerase_eq_self_of_not_mem (l : List (κ × α)) (k : κ)
    (h : k ∉ l.map Prod.fst) : aerase l k = l := by
  induction l with
  | nil => rfl
  | cons p l ih =>
    obtain ⟨k0, v0⟩ := p
    simp only [List.map_cons, List.mem_cons] at h
    push_neg at h
    simp [aerase, h.1, ih h.2]

theorem length_aerase_of_nodup (l : List (κ × α)) (k : κ)
    (h : (l.map Prod.fst).Nodup) (hk : alookup l k ≠ none) :
    (aerase l k).length = l.length - 1 := by
  induction l with
  | nil => simp [alookup] at hk
  | cons p l ih =>
    obtain ⟨k0, v0⟩ := p
    simp only [List.map_cons, List.nodup_cons] at h
    by_cases h0 : k = k0
    · subst h0
      have h1 : aerase ((k, v0) :: l) k = aerase l k := by simp [aerase]
      rw [h1, aerase_eq_self_of_not_mem l k h.1]
      simp
    · simp only [alookup_cons, if_neg h0] at hk
      simp only [aerase, if_neg h0, List.length_cons]
      rw [ih h.2 hk]
      have : 1 ≤ l.length := by
        rcases l with _ | _
        · simp [alookup] at hk
        · simp
      omega

theorem mem_of_mem_aerase {l : List (κ × α)} {k : κ} {p : κ × α}
    (h : p ∈ aerase l k) : p ∈ l := by
  induction l with
  | nil => simp [aerase] at h
  | cons q l ih =>
    obtain ⟨k0, v0⟩ := q
    by_cases h0 : k = k0
    · simp only [aerase, if_pos h0] at h
      exact List.mem_cons_of_mem _ (ih h)
    · simp only [aerase, if_neg h0, List.mem_cons] at h
      rcases h with h | h
      · exact h ▸ List.mem_cons_self _ _
      · exact List.mem_cons_of_mem _ (ih h)

theorem mem_of_mem_aset {l : List (κ × α)} {k : κ} {v : α} {p : κ × α}
    (h : p ∈ aset l k v) : p ∈ l ∨ p = (k, v) := by
  induction l with
  | nil => simp [aset] at h; right; exact h
  | cons q l ih =>
    obtain ⟨k0, v0⟩ := q
    by_cases h0 : k = k0
    · simp only [aset, if_pos h0, List.mem_cons] at h
      rcases h with h | h
      · right; exact h
      · left; exact List.mem_cons_of_mem _ h
    · simp only [aset, if_neg h0, List.mem_cons] at h
      rcases h with h | h
      · left; exact h ▸ List.mem_cons_self _ _
      · rcases ih h with h | h
        · left; exact List.mem_cons_of_mem _ h
        · right; exact h
theorem alookup_ne_none_of_mem (l : List (κ × α)) (k : κ)
    (h : k ∈ l.map Prod.fst) : alookup l k ≠ none := by
  induction l with
  | nil => simp at h
  | cons p l ih =>
    obtain ⟨k0, v0⟩ := p
    simp only [List.map_cons, List.mem_cons] at h
    by_cases h0 : k = k0
    · simp [h0]
    · rcases h with h | h
      · exact absurd h h0
      · simp only [alookup_cons, if_neg h0]
        exact ih h

theorem eq_of_mem_aset_self {l : List (κ × α)} {k : κ} {v v' : α}
    (hnd : (l.map Prod.fst).Nodup) (h : (k, v') ∈ aset l k v) : v' = v := by
  induction l with
  | nil => simp [aset] at h; exact h
  | cons p l ih =>
    obtain ⟨k0, v0⟩ := p
    simp only [List.map_cons, List.nodup_cons] at hnd
    by_cases h0 : k = k0
    · subst h0
      simp only [aset, if_true, eq_self_iff_true, List.mem_cons] at h
      rcases h with h | h
      · exact ((Prod.mk.injEq _ _ _ _).mp h).2
      · exact absurd (List.mem_map_of_mem Prod.fst h) hnd.1
    · simp only [aset, if_neg h0, List.mem_cons] at h
      rcases h with h | h
      · exact absurd ((Prod.mk.injEq _ _ _ _).mp h).1 h0
      · exact ih hnd.2 h

theorem filter_aerase_of_pred_false (l : List (κ × α)) (k : κ)
    (p : κ × α → Bool) (hnd : (l.map Prod.fst).Nodup)
    (hp : ∀ v, (k, v) ∈ l → p (k, v) = false) :
    (aerase l k).filter p = l.filter p := by
  induction l with
  | nil => rfl
  | cons q l ih =>
    obtain ⟨k0, v0⟩ := q
    simp only [List.map_cons, List.nodup_cons] at hnd
    by_cases h0 : k = k0
    · subst h0
      have hfalse : p (k, v0) = false := hp v0 (List.mem_cons_self _ _)
      have herase : aerase l k = l := by
        apply aerase_eq_self_of_not_mem
        exact hnd.1
      simp only [aerase, if_pos rfl, herase, List.filter_cons, hfalse]
      simp
    · simp only [aerase, if_neg h0, List.filter_cons]
      rw [ih hnd.2 (fun v hv => hp v (List.mem_cons_of_mem _ hv))]

end AssocLemmas


/-! ## LRU manager lemmas -/

namespace LRUManager

theorem add_snd (lru : LRUManager) (key : String) : (lru.add key).2 = lru.fresh := by
  unfold add
  cases lru.head <;> rfl

theorem add_nodeMap (lru : LRUManager) (key : String) :
    (lru.add key).1.nodeMap = aset lru.nodeMap key lru.fresh := by
  unfold add
  cases lru.head <;> rfl

theorem add_fresh (lru : LRUManager) (key : String) :
    (lru.add key).1.fresh = lru.fresh + 1 := by
  unfold add
  cases lru.head <;> rfl

theorem add_nodes_key (lru : LRUManager) (key : String) :
    ∃ nd, alookup (lru.add key).1.nodes lru.fresh = some nd ∧ nd.key = key := by
  unfold add
  cases lru.head with
  | none =>
    exact ⟨{ key := key, prev := none, next := none }, by simp, rfl⟩
  | some hh =>
    simp only
    rw [alookup_aupd]
    by_cases hc : lru.fresh = hh
    · subst hc
      rw [if_pos rfl, alookup_aset_self]
      exact ⟨_, rfl, rfl⟩
    · rw [if_neg hc, alookup_aset_self]
      exact ⟨_, rfl, rfl⟩

theorem remove_some_nodeMap (lru : LRUManager) (nid : Nat) (nd : LRUNodeData)
    (h : alookup lru.nodes nid = some nd) :
    (lru.remove (some nid)).nodeMap = aerase lru.nodeMap nd.key := by
  simp only [remove, h]

theorem remove_fresh (lru : LRUManager) (n : Option Nat) :
    (lru.remove n).fresh = lru.fresh := by
  cases n with
  | none => rfl
  | some nid =>
    cases h : alookup lru.nodes nid with
    | none => simp [remove, h]
    | some nd => simp [remove, h]

theorem removeTail_fresh (lru : LRUManager) : lru.removeTail.fresh = lru.fresh := by
  unfold removeTail
  cases lru.tail with
  | none => rfl
  | some t => exact remove_fresh lru (some t)

end LRUManager

/-! ## Cache lemmas -/

namespace Cache

theorem evictIfFull_ttl (c : Cache) : c.evictIfFull.ttl = c.ttl := by
  unfold evictIfFull
  repeat' split
  all_goals rfl

theorem evictIfFull_maxSize (c : Cache) : c.evictIfFull.maxSize = c.maxSize := by
  unfold evictIfFull
  repeat' split
  all_goals rfl

theorem evictIfFull_fresh (c : Cache) : c.evictIfFull.lru.fresh = c.lru.fresh := by
  unfold evictIfFull
  repeat' split
  all_goals simp [LRUManager.removeTail_fresh]

theorem set_usersByID (c : Cache) (now : Nat) (id : String) (u : MemoryUser) :
    (c.set now id u).usersByID =
      aset c.evictIfFull.usersByID id
        { user := u, expiresAt := now + c.ttl, lruNode := some c.evictIfFull.lru.fresh } := by
  simp only [set]
  rw [LRUManager.add_snd, evictIfFull_ttl]

theorem set_usersByEmail (c : Cache) (now : Nat) (id : String) (u : MemoryUser) :
    (c.set now id u).usersByEmail =
      aset c.evictIfFull.usersByEmail u.email
        { user := u, expiresAt := now + c.ttl, lruNode := some c.evictIfFull.lru.fresh } := by
  simp only [set]
  rw [LRUManager.add_snd, evictIfFull_ttl]

theorem set_lru (c : Cache) (now : Nat) (id : String) (u : MemoryUser) :
    (c.set now id u).lru = (c.evictIfFull.lru.add id).1 := by
  simp only [set]

theorem set_ttl (c : Cache) (now : Nat) (id : String) (u : MemoryUser) :
    (c.set now id u).ttl = c.ttl := by
  simp only [set]
  rw [evictIfFull_ttl]

theorem set_maxSize (c : Cache) (now : Nat) (id : String) (u : MemoryUser) :
    (c.set now id u).maxSize = c.maxSize := by
  simp only [set]
  rw [evictIfFull_maxSize]

theorem get_absent {c : Cache} {now : Nat} {id : String}
    (h : alookup c.usersByID id = none) : c.get now id = (none, c) := by
  unfold get
  rw [h]

theorem get_live {c : Cache} {now : Nat} {id : String} {e : UserEntry}
    (h : alookup c.usersByID id = some e) (hexp : ¬now > e.expiresAt) :
    (c.get now id).1 = some e.user := by
  unfold get
  rw [h]
  simp only [if_neg hexp]

theorem get_expired {c : Cache} {now : Nat} {id : String} {e : UserEntry}
    (h : alookup c.usersByID id = some e) (hexp : now > e.expiresAt) :
    c.get now id =
      (none, { c with usersByID := aerase c.usersByID id,
                      usersByEmail := aerase c.usersByEmail e.user.email,
                      lru := c.lru.remove e.lruNode }) := by
  unfold get
  rw [h]
  simp only [if_pos hexp]

theorem getByEmail_absent {c : Cache} {now : Nat} {email : String}
    (h : alookup c.usersByEmail email = none) : c.getByEmail now email = (none, c) := by
  unfold getByEmail
  rw [h]

theorem getByEmail_not_vless {c : Cache} {now : Nat} {email : String} {e : UserEntry}
    (h : alookup c.usersByEmail email = some e) (hacc : e.user.account = Account.other) :
    c.getByEmail now email = (none, c) := by
  simp only [getByEmail, h, hacc]

theorem getByEmail_live_vless {c : Cache} {now : Nat} {email : String} {e : UserEntry}
    {uuid flow : String}
    (h : alookup c.usersByEmail email = some e)
    (hacc : e.user.account = Account.vless uuid flow) (hexp : ¬now > e.expiresAt) :
    (c.getByEmail now email).1 = some e.user := by
  simp only [getByEmail, h, hacc, if_neg hexp]

theorem getByEmail_expired_vless {c : Cache} {now : Nat} {email : String} {e : UserEntry}
    {uuid flow : String}
    (h : alookup c.usersByEmail email = some e)
    (hacc : e.user.account = Account.vless uuid flow) (hexp : now > e.expiresAt) :
    c.getByEmail now email =
      (none, { c with usersByEmail := aerase c.usersByEmail email,
                      usersByID := aerase c.usersByID uuid,
                      lru := c.lru.remove (c.lru.getNode uuid) }) := by
  simp only [getByEmail, h, hacc, if_pos hexp]

end Cache

section AssocLemmas2

variable {κ : Type} {α : Type} [DecidableEq κ]

theorem map_fst_aset (l : List (κ × α)) (k : κ) (v : α) :
    (aset l k v).map Prod.fst =
      if k ∈ l.map Prod.fst then l.map Prod.fst else l.map Prod.fst ++ [k] := by
  induction l with
  | nil => simp [aset]
  | cons p l ih =>
    obtain ⟨k0, v0⟩ := p
    by_cases h0 : k = k0
    · subst h0
      simp [aset]
    · simp only [aset, if_neg h0, List.map_cons, ih]
      by_cases h1 : k ∈ l.map Prod.fst
      · simp [h1, h0]
      · simp [h1, h0]

theorem nodup_aset (l : List (κ × α)) (k : κ) (v : α)
    (h : (l.map Prod.fst).Nodup) : ((aset l k v).map Prod.fst).Nodup := by
  rw [map_fst_aset]
  by_cases h1 : k ∈ l.map Prod.fst
  · simpa [h1]
  · simp [h1, List.nodup_append, h]

end AssocLemmas2

namespace Cache

theorem evictIfFull_usersByID_cases (c : Cache) :
    c.evictIfFull.usersByID = c.usersByID ∨
      ∃ k, c.evictIfFull.usersByID = aerase c.usersByID k := by
  unfold evictIfFull
  repeat' split
  · left; rfl
  · left; rfl
  · left; rfl
  · right; exact ⟨_, rfl⟩
  · left; rfl

theorem evictIfFull_nodup (c : Cache) (h : (c.usersByID.map Prod.fst).Nodup) :
    (c.evictIfFull.usersByID.map Prod.fst).Nodup := by
  rcases evictIfFull_usersByID_cases c with hc | ⟨k, hc⟩
  · rwa [hc]
  · rw [hc]; exact nodup_aerase _ _ h

theorem set_nodup (c : Cache) (now : Nat) (id : String) (u : MemoryUser)
    (h : (c.usersByID.map Prod.fst).Nodup) :
    ((c.set now id u).usersByID.map Prod.fst).Nodup := by
  rw [set_usersByID]
  exact nodup_aset _ _ _ (evictIfFull_nodup c h)

end Cache

/-! ## Claim C1: round-trip through the cache -/

/-- C1, counterexample: the round-trip claim fails as stated. For a
record whose account payload is not a VLESS account, after Set on a fresh
cache the record is resident and unexpired (Get by the primary identifier
returns it), yet GetByEmail on its alias reports not-found, because
GetByEmail insists on extracting a VLESS account UUID before answering. -/
theorem C1_nonvless_roundtrip_fails :
    ((((Cache.mkNew 5 0).set 0 "id-1" (ouser "alice")).get 0 "id-1").1
        = some (ouser "alice")) ∧
    ((((Cache.mkNew 5 0).set 0 "id-1" (ouser "alice")).getByEmail 0 "alice").1
        = none) := by
  constructor <;> rfl

/-- C1 (amended: the record's account payload must be a VLESS account):
for every prior cache state, identifier and VLESS-account record, right
after `Set(I, R)` (same instant, hence unexpired, and Set never evicts
the entry it just inserted), `Get(I)` returns `(R, true)` and
`GetByEmail(R.email)` returns `(R, true)`. -/
theorem C1_roundtrip_vless (c : Cache) (now : Nat) (id : String) (u : MemoryUser)
    (uuid flow : String) (hacc : u.account = Account.vless uuid flow) :
    ((c.set now id u).get now id).1 = some u ∧
    ((c.set now id u).getByEmail now u.email).1 = some u := by
  have hid : alookup (c.set now id u).usersByID id =
      some { user := u, expiresAt := now + c.ttl,
             lruNode := some c.evictIfFull.lru.fresh } := by
    rw [Cache.set_usersByID]
    exact alookup_aset_self _ _ _
  have hem : alookup (c.set now id u).usersByEmail u.email =
      some { user := u, expiresAt := now + c.ttl,
             lruNode := some c.evictIfFull.lru.fresh } := by
    rw [Cache.set_usersByEmail]
    exact alookup_aset_self _ _ _
  have hexp : ¬now > now + c.ttl := by omega
  exact ⟨Cache.get_live hid hexp, Cache.getByEmail_live_vless hem hacc hexp⟩

/-- Witness for C1_roundtrip_vless at a concrete input. -/
theorem C1_roundtrip_vless_witness :
    (((Cache.mkNew 5 100).set 0 "w1" (vuser "w1" "w")).get 0 "w1").1
        = some (vuser "w1" "w") ∧
    (((Cache.mkNew 5 100).set 0 "w1" (vuser "w1" "w")).getByEmail 0 "w").1
        = some (vuser "w1" "w") :=
  C1_roundtrip_vless (Cache.mkNew 5 100) 0 "w1" (vuser "w1" "w") "w1" "" rfl

/-! ## Claim C2: lazy expiry -/

/-- C2, counterexample: the claim says an entry whose expiry instant is
at or before the current time is treated as not-found, but the code uses
`time.Now().After(ExpiresAt)`, which is a strict comparison: an entry
whose expiry equals the current instant is still served. Here the record
inserted at instant 0 with TTL 5 is still returned by Get at instant 5. -/
theorem C2_expiry_at_boundary_still_found :
    (((Cache.mkNew 5 100).set 0 "b1" (vuser "b1" "b")).get 5 "b1").1
      = some (vuser "b1" "b") := by
  rfl

/-- C2 (amended: an entry is expired only when its expiry instant is
strictly before the current time): after `Set(I, R)` with TTL t and a
wait of strictly more than t, `Get(I)` reports not-found and removes the
entry from the by-identifier map, the by-alias map and the LRU key
lookup in that same call; `GetByEmail(R.email)` also reports not-found;
and `GetCount` excludes R (counting before the removal equals counting
after it). The Nodup hypothesis states that the by-identifier map has
unique keys, as any Go map does. -/
theorem C2_lazy_expiry_strict (c : Cache) (id : String) (R : MemoryUser)
    (now now2 : Nat) (hnd : (c.usersByID.map Prod.fst).Nodup)
    (h2 : now + c.ttl < now2) :
    (((c.set now id R).get now2 id).1 = none) ∧
    (alookup ((c.set now id R).get now2 id).2.usersByID id = none) ∧
    (alookup ((c.set now id R).get now2 id).2.usersByEmail R.email = none) ∧
    (alookup ((c.set now id R).get now2 id).2.lru.nodeMap id = none) ∧
    (((c.set now id R).getByEmail now2 R.email).1 = none) ∧
    ((c.set now id R).getCount now2 = ((c.set now id R).get now2 id).2.getCount now2) := by
  have hid : alookup (c.set now id R).usersByID id =
      some { user := R, expiresAt := now + c.ttl,
             lruNode := some c.evictIfFull.lru.fresh } := by
    rw [Cache.set_usersByID]
    exact alookup_aset_self _ _ _
  have hem : alookup (c.set now id R).usersByEmail R.email =
      some { user := R, expiresAt := now + c.ttl,
             lruNode := some c.evictIfFull.lru.fresh } := by
    rw [Cache.set_usersByEmail]
    exact alookup_aset_self _ _ _
  have hexp : now2 > (now + c.ttl) := h2
  have hget := Cache.get_expired hid hexp
  have hnd1 : ((c.set now id R).usersByID.map Prod.fst).Nodup :=
    Cache.set_nodup c now id R hnd
  refine ⟨?_, ?_, ?_, ?_, ?_, ?_⟩
  · rw [hget]
  · rw [hget]
    exact alookup_aerase_self _ _
  · rw [hget]
    exact alookup_aerase_self _ _
  · rw [hget]
    show alookup ((c.set now id R).lru.remove
        (some c.evictIfFull.lru.fresh)).nodeMap id = none
    obtain ⟨nd, hlook, hkey⟩ := LRUManager.add_nodes_key c.evictIfFull.lru id
    rw [Cache.set_lru] at *
    rw [LRUManager.remove_some_nodeMap _ _ _ hlook, hkey,
        LRUManager.add_nodeMap]
    exact alookup_aerase_self _ _
  · cases hacc : R.account with
    | other =>
      rw [Cache.getByEmail_not_vless hem hacc]
    | vless uuid flow =>
      rw [Cache.getByEmail_expired_vless hem hacc hexp]
  · rw [hget]
    show _ = Cache.getCount _ now2
    unfold Cache.getCount
    simp only
    rw [filter_aerase_of_pred_false _ id _ hnd1]
    intro v hv
    have hv' : v = { user := R, expiresAt := now + c.ttl,
                     lruNode := some c.evictIfFull.lru.fresh } := by
      rw [Cache.set_usersByID] at hv
      exact eq_of_mem_aset_self (Cache.evictIfFull_nodup c hnd) hv
    subst hv'
    simp only []
    exact decide_eq_false (by omega)

/-- Witness for C2_lazy_expiry_strict at a concrete input. -/
theorem C2_lazy_expiry_strict_witness :
    ((((Cache.mkNew 5 100).set 0 "b2" (vuser "b2" "c")).get 6 "b2").1 = none) ∧
    (alookup (((Cache.mkNew 5 100).set 0 "b2" (vuser "b2" "c")).get 6 "b2").2.usersByID
        "b2" = none) ∧
    (alookup (((Cache.mkNew 5 100).set 0 "b2" (vuser "b2" "c")).get 6 "b2").2.usersByEmail
        (vuser "b2" "c").email = none) ∧
    (alookup (((Cache.mkNew 5 100).set 0 "b2" (vuser "b2" "c")).get 6 "b2").2.lru.nodeMap
        "b2" = none) ∧
    ((((Cache.mkNew 5 100).set 0 "b2" (vuser "b2" "c")).getByEmail 6
        (vuser "b2" "c").email).1 = none) ∧
    (((Cache.mkNew 5 100).set 0 "b2" (vuser "b2" "c")).getCount 6 =
      (((Cache.mkNew 5 100).set 0 "b2" (vuser "b2" "c")).get 6 "b2").2.getCount 6) :=
  C2_lazy_expiry_strict (Cache.mkNew 5 100) "b2" (vuser "b2" "c") 0 6
    List.nodup_nil (by decide)

/-! ## Claim C5: LRU index invariant -/

/-- C5: the LRU index invariant is violated by the code. After
`Add k1; Add k2; MoveToFront(node k1)` the node for k1 (handle 0) is
linked in the list — it is the head, and the walk from the head yields
both handles — yet `GetNode k1` fails: MoveToFront delegates to Remove,
which deletes the nodeMap entry, and never re-inserts it, so a linked
node has no corresponding lookup-map entry. -/
theorem C5_moveToFront_drops_nodeMap_entry :
    lru5_final.head = some 0 ∧
    lru5_final.linkedIds = [0, 1] ∧
    alookup lru5_final.nodes 0 =
      some { key := "k1", prev := none, next := some 1 } ∧
    lru5_final.getNode "k1" = none := by
  refine ⟨rfl, rfl, rfl, rfl⟩

/-! ## Claim C4: LRU ordering under both access paths -/

/-- C4: touching through GetByEmail does not always promote the entry.
Records a (email e1) and b (email e2) are inserted into a cache of
maximum size 2 and both promoted via Get, which strips their nodeMap
entries. GetByEmail(e1) then finds record a unexpired — the claim says
this moves it to the most-recently-used position — but leaves the LRU
state entirely unchanged (its GetNode lookup fails), so the next Set
evicts record a itself rather than the least-recently-touched record b. -/
theorem C4_getByEmail_does_not_promote :
    c4_afterTouch.1 = some (vuser "a" "e1") ∧
    c4_afterTouch.2.lru = c4_afterGets.lru ∧
    alookup c4_final.usersByID "a" = none ∧
    alookup c4_final.usersByID "b" ≠ none ∧
    alookup c4_final.usersByID "c" ≠ none := by
  refine ⟨rfl, rfl, rfl, ?_, ?_⟩ <;> decide

/-! ## Claim C6: dual-index consistency -/

/-- C6: partial removal is possible. With TTL 10, records a and b are
inserted and both promoted through Get (stripping their nodeMap
entries). At instant 20 both are expired; GetByEmail(e1) removes record
a from the by-identifier map and the by-alias map, but its LRU node
(handle 0) stays linked — the expiry path fetches the node through the
stripped nodeMap and silently skips the LRU removal — so the entry is
removed from both maps but not from the LRU index in the same operation. -/
theorem C6_expiry_leaves_lru_node_linked :
    alookup c6_final.usersByID "a" = none ∧
    alookup c6_final.usersByEmail "e1" = none ∧
    c6_final.lru.tail = some 0 ∧
    c6_final.lru.linkedIds = [1, 0] ∧
    alookup c6_final.lru.nodes 0 =
      some { key := "a", prev := some 1, next := none } := by
  refine ⟨rfl, rfl, rfl, rfl, rfl⟩

/-! ## Claim C7: Validator write-path atomicity -/

/-- C7: Validator.Add on a record whose account payload is not a VLESS
account returns the validation error with no Storage call and no state
change; for a VLESS record, any Storage.AddUser error is returned
verbatim with no cache mutation; and only on Storage success with
caching enabled is the record inserted into the cache, keyed by the
account's UUID string (the primary identifier). -/
theorem C7_add_write_path (sb : StorageBehavior) (now : Nat) (v : Validator)
    (u : MemoryUser) :
    (u.account = Account.other →
      Validator.add sb now v u = (some SErr.validation, v, [])) ∧
    (∀ uuid flow e, u.account = Account.vless uuid flow →
      sb.addUser u = some e →
      Validator.add sb now v u = (some e, v, [StorageCall.addUser u])) ∧
    (∀ uuid flow, u.account = Account.vless uuid flow → sb.addUser u = none →
      (v.cache = none → Validator.add sb now v u = (none, v, [StorageCall.addUser u])) ∧
      (∀ c, v.cache = some c →
        Validator.add sb now v u =
          (none, { cache := some (c.set now uuid u) }, [StorageCall.addUser u]) ∧
        (∃ en, alookup (c.set now uuid u).usersByID uuid = some en ∧ en.user = u))) := by
  refine ⟨?_, ?_, ?_⟩
  · intro hacc
    simp only [Validator.add, hacc]
  · intro uuid flow e hacc herr
    simp only [Validator.add, hacc, herr]
  · intro uuid flow hacc hok
    constructor
    · intro hc
      simp only [Validator.add, hacc, hok, hc]
    · intro c hc
      constructor
      · simp only [Validator.add, hacc, hok, hc]
      · refine ⟨{ user := u, expiresAt := now + c.ttl,
                   lruNode := some c.evictIfFull.lru.fresh }, ?_, rfl⟩
        rw [Cache.set_usersByID]
        exact alookup_aset_self _ _ _

/-- Witness for C7_add_write_path at concrete inputs: one rejected
non-VLESS record, one duplicate-key error propagated verbatim, one
successful cached insert. -/
theorem C7_add_write_path_witness :
    (Validator.add sbNilNil 0 { cache := none } (ouser "o") =
      (some SErr.validation, { cache := none }, [])) ∧
    (Validator.add
        { sbNilNil with addUser := fun _ => some SErr.duplicateKey } 0
        { cache := none } (vuser "d" "d") =
      (some SErr.duplicateKey, { cache := none },
       [StorageCall.addUser (vuser "d" "d")])) ∧
    (Validator.add sbNilNil 0 { cache := some (Cache.mkNew 5 100) } (vuser "d" "d") =
      (none, { cache := some ((Cache.mkNew 5 100).set 0 "d" (vuser "d" "d")) },
       [StorageCall.addUser (vuser "d" "d")])) :=
  ⟨(C7_add_write_path sbNilNil 0 { cache := none } (ouser "o")).1 rfl,
   (C7_add_write_path _ 0 { cache := none } (vuser "d" "d")).2.1 "d" "" _ rfl rfl,
   (((C7_add_write_path sbNilNil 0 { cache := some (Cache.mkNew 5 100) }
      (vuser "d" "d")).2.2 "d" "" rfl rfl).2 (Cache.mkNew 5 100) rfl).1⟩

/-! ## Claim C8: read-path error collapsing -/

/-- C8: whenever the Storage lookup performed by Validator.Get or
Validator.GetByEmail returns any error value — not-found, connection
failure and generic query failure alike — the call returns nil, both with
caching disabled and on a cache miss with caching enabled. -/
theorem C8_read_errors_collapse (sb : StorageBehavior) (now : Nat)
    (id email : String) (v : Validator) (e1 e2 : SErr) :
    (v.cache = none → (sb.getUserByID id).2 = some e1 →
      (Validator.get sb now v id).1 = none) ∧
    (∀ c, v.cache = some c → (c.get now id).1 = none →
      (sb.getUserByID id).2 = some e1 →
      (Validator.get sb now v id).1 = none) ∧
    (v.cache = none → (sb.getUserByEmail email).2 = some e2 →
      (Validator.getByEmail sb now v email).1 = none) ∧
    (∀ c, v.cache = some c → (c.getByEmail now email).1 = none →
      (sb.getUserByEmail email).2 = some e2 →
      (Validator.getByEmail sb now v email).1 = none) := by
  refine ⟨?_, ?_, ?_, ?_⟩
  · intro hc herr
    rcases hsb : sb.getUserByID id with ⟨ures, eres⟩
    rw [hsb] at herr
    simp only at herr
    subst herr
    simp only [Validator.get, hc, hsb]
  · intro c hc hmiss herr
    rcases hsb : sb.getUserByID id with ⟨ures, eres⟩
    rw [hsb] at herr
    simp only at herr
    subst herr
    rcases hcg : c.get now id with ⟨r1, c1⟩
    rw [hcg] at hmiss
    simp only at hmiss
    subst hmiss
    simp only [Validator.get, hc, hcg, hsb]
  · intro hc herr
    rcases hsb : sb.getUserByEmail email with ⟨ures, eres⟩
    rw [hsb] at herr
    simp only at herr
    subst herr
    simp only [Validator.getByEmail, hc, hsb]
  · intro c hc hmiss herr
    rcases hsb : sb.getUserByEmail email with ⟨ures, eres⟩
    rw [hsb] at herr
    simp only at herr
    subst herr
    rcases hcg : c.getByEmail now email with ⟨r1, c1⟩
    rw [hcg] at hmiss
    simp only at hmiss
    subst hmiss
    simp only [Validator.getByEmail, hc, hcg, hsb]

/-- Witness for C8_read_errors_collapse at a concrete input: a Storage
whose lookups fail with a connection error, with caching disabled and
with an empty cache. -/
theorem C8_read_errors_collapse_witness :
    ((Validator.get
        { sbNilNil with getUserByID := fun _ => (none, some SErr.connection) }
        0 { cache := none } "x").1 = none) ∧
    ((Validator.get
        { sbNilNil with getUserByID := fun _ => (none, some SErr.connection) }
        0 { cache := some (Cache.mkNew 5 100) } "x").1 = none) ∧
    ((Validator.getByEmail
        { sbNilNil with getUserByEmail := fun _ => (none, some SErr.query) }
        0 { cache := none } "e").1 = none) ∧
    ((Validator.getByEmail
        { sbNilNil with getUserByEmail := fun _ => (none, some SErr.query) }
        0 { cache := some (Cache.mkNew 5 100) } "e").1 = none) :=
  ⟨(C8_read_errors_collapse _ 0 "x" "e" { cache := none }
      SErr.connection SErr.query).1 rfl rfl,
   (C8_read_errors_collapse _ 0 "x" "e" { cache := some (Cache.mkNew 5 100) }
      SErr.connection SErr.query).2.1 (Cache.mkNew 5 100) rfl rfl rfl,
   (C8_read_errors_collapse _ 0 "x" "e" { cache := none }
      SErr.connection SErr.query).2.2.1 rfl rfl,
   (C8_read_errors_collapse _ 0 "x" "e" { cache := some (Cache.mkNew 5 100) }
      SErr.connection SErr.query).2.2.2 (Cache.mkNew 5 100) rfl rfl rfl⟩

/-! ## Claim C10: nil-record tolerance -/

/-- C10, counterexample: with a resident but expired entry under the
queried identifier, a Storage lookup that returns (nil, nil) yields nil
from Validator.Get, yet the cache state is not unchanged: the cache
lookup performed on the way lazily removed the expired entry. -/
theorem C10_expired_lookup_mutates_cache :
    ((Validator.get sbNilNil 20 { cache := some c10_start } "a").1 = none) ∧
    ((Validator.get sbNilNil 20 { cache := some c10_start } "a").2.1 ≠
      { cache := some c10_start }) ∧
    (alookup c10_start.usersByID "a" ≠ none) := by
  refine ⟨rfl, ?_, ?_⟩ <;> decide

/-- C10 (amended): when the Storage lookup returns a nil record with a
nil error, Validator.Get and Validator.GetByEmail return nil and never
backfill: the resulting cache is exactly the state left by the read-side
cache lookup itself, and whenever the queried key is not resident that
state is the original cache unchanged. -/
theorem C10_nil_record_no_backfill (sb : StorageBehavior) (now : Nat)
    (v : Validator) (id email : String) :
    (sb.getUserByID id = (none, none) →
      (v.cache = none →
        Validator.get sb now v id = (none, v, [StorageCall.getUserByID id])) ∧
      (∀ c, v.cache = some c → (c.get now id).1 = none →
        Validator.get sb now v id =
          (none, { cache := some (c.get now id).2 }, [StorageCall.getUserByID id]) ∧
        (alookup c.usersByID id = none → (c.get now id).2 = c))) ∧
    (sb.getUserByEmail email = (none, none) →
      (v.cache = none →
        Validator.getByEmail sb now v email =
          (none, v, [StorageCall.getUserByEmail email])) ∧
      (∀ c, v.cache = some c → (c.getByEmail now email).1 = none →
        Validator.getByEmail sb now v email =
          (none, { cache := some (c.getByEmail now email).2 },
           [StorageCall.getUserByEmail email]) ∧
        (alookup c.usersByEmail email = none → (c.getByEmail now email).2 = c))) := by
  constructor
  · intro hsb
    constructor
    · intro hc
      simp only [Validator.get, hc, hsb]
    · intro c hc hmiss
      rcases hcg : c.get now id with ⟨r1, c1⟩
      rw [hcg] at hmiss
      have hr1 : r1 = none := hmiss
      subst hr1
      constructor
      · simp only [Validator.get, hc, hcg, hsb]
      · intro habs
        have h0 := @Cache.get_absent c now id habs
        rw [hcg] at h0
        exact ((Prod.mk.injEq _ _ _ _).mp h0).2
  · intro hsb
    constructor
    · intro hc
      simp only [Validator.getByEmail, hc, hsb]
    · intro c hc hmiss
      rcases hcg : c.getByEmail now email with ⟨r1, c1⟩
      rw [hcg] at hmiss
      have hr1 : r1 = none := hmiss
      subst hr1
      constructor
      · simp only [Validator.getByEmail, hc, hcg, hsb]
      · intro habs
        have h0 := @Cache.getByEmail_absent c now email habs
        rw [hcg] at h0
        exact ((Prod.mk.injEq _ _ _ _).mp h0).2

/-- Witness for C10_nil_record_no_backfill at a concrete input: an empty
cache and a Storage answering (nil, nil) for every identifier and alias. -/
theorem C10_nil_record_no_backfill_witness :
    (Validator.get sbNilNil 0 { cache := none } "x" =
      (none, { cache := none }, [StorageCall.getUserByID "x"])) ∧
    (Validator.get sbNilNil 0 { cache := some (Cache.mkNew 5 100) } "x" =
      (none, { cache := some ((Cache.mkNew 5 100).get 0 "x").2 },
       [StorageCall.getUserByID "x"])) ∧
    (((Cache.mkNew 5 100).get 0 "x").2 = Cache.mkNew 5 100) ∧
    (Validator.getByEmail sbNilNil 0 { cache := none } "e" =
      (none, { cache := none }, [StorageCall.getUserByEmail "e"])) :=
  ⟨((C10_nil_record_no_backfill sbNilNil 0 { cache := none } "x" "e").1 rfl).1 rfl,
   (((C10_nil_record_no_backfill sbNilNil 0 { cache := some (Cache.mkNew 5 100) }
       "x" "e").1 rfl).2 (Cache.mkNew 5 100) rfl rfl).1,
   (((C10_nil_record_no_backfill sbNilNil 0 { cache := some (Cache.mkNew 5 100) }
       "x" "e").1 rfl).2 (Cache.mkNew 5 100) rfl rfl).2 rfl,
   ((C10_nil_record_no_backfill sbNilNil 0 { cache := none } "x" "e").2 rfl).1 rfl⟩

/-! ## Claim C9: no-cache pagination of GetAll -/

theorem getAllLoop_no_fail (all : List MemoryUser) (failAt : Nat → Option SErr)
    (hfail : ∀ off, failAt off = none) :
    ∀ fuel offset, all.length ≤ offset + fuel →
      Validator.getAllLoop all failAt offset = some (all.drop offset) := by
  intro fuel
  induction fuel with
  | zero =>
    intro offset hoff
    rw [Validator.getAllLoop.eq_def, hfail]
    have hpage : (Validator.storagePage all offset 100).length = 0 := by
      simp only [Validator.storagePage, List.length_take, List.length_drop]
      omega
    rw [dif_pos hpage]
    have hdrop : all.drop offset = [] := List.drop_eq_nil_of_le (by omega)
    rw [hdrop]
  | succ n ih =>
    intro offset hoff
    rw [Validator.getAllLoop.eq_def, hfail]
    have hplen : (Validator.storagePage all offset 100).length =
        min 100 (all.length - offset) := by
      simp [Validator.storagePage]
    by_cases h1 : (Validator.storagePage all offset 100).length = 0
    · rw [dif_pos h1]
      have hdrop : all.drop offset = [] := by
        apply List.drop_eq_nil_of_le
        omega
      rw [hdrop]
    · rw [dif_neg h1]
      by_cases h2 : (Validator.storagePage all offset 100).length < 100
      · rw [dif_pos h2]
        have hpg : Validator.storagePage all offset 100 = all.drop offset := by
          unfold Validator.storagePage
          apply List.take_of_length_le
          simp only [List.length_drop]
          omega
        rw [hpg]
      · rw [dif_neg h2]
        have hrec := ih (offset + 100) (by omega)
        rw [hrec]
        show some (Validator.storagePage all offset 100 ++ all.drop (offset + 100))
          = some (all.drop offset)
        congr 1
        rw [Validator.storagePage, ← List.drop_drop]
        exact List.take_append_drop 100 (all.drop offset)

theorem getAllLoop_fail (all : List MemoryUser) (failAt : Nat → Option SErr)
    (e : SErr) :
    ∀ k offset, (∀ j, j < k → failAt (offset + 100 * j) = none) →
      failAt (offset + 100 * k) = some e →
      offset + 100 * k ≤ all.length →
      Validator.getAllLoop all failAt offset = none := by
  intro k
  induction k with
  | zero =>
    intro offset hpre hfa hlen
    rw [Validator.getAllLoop.eq_def]
    simp only [Nat.mul_zero, Nat.add_zero] at hfa
    rw [hfa]
  | succ n ih =>
    intro offset hpre hfa hlen
    rw [Validator.getAllLoop.eq_def]
    have h0 : failAt offset = none := by
      have h00 := hpre 0 (by omega)
      simpa using h00
    rw [h0]
    have hplen : (Validator.storagePage all offset 100).length = 100 := by
      simp only [Validator.storagePage, List.length_take, List.length_drop]
      omega
    rw [dif_neg (by rw [hplen]; omega), dif_neg (by rw [hplen]; omega)]
    have hpre' : ∀ j, j < n → failAt (offset + 100 + 100 * j) = none := by
      intro j hj
      have harg : offset + 100 + 100 * j = offset + 100 * (j + 1) := by omega
      rw [harg]
      exact hpre (j + 1) (by omega)
    have hfa' : failAt (offset + 100 + 100 * n) = some e := by
      have harg : offset + 100 + 100 * n = offset + 100 * (n + 1) := by omega
      rw [harg]
      exact hfa
    rw [ih (offset + 100) hpre' hfa' (by omega)]
    rfl

/-- C9: with caching disabled, Validator.GetAll paginates Storage.GetUsers
with fixed page size 100 from offset 0, stops at an empty or short page,
and returns the concatenation of all pages — for a Storage holding `all`
with no failures it returns exactly `all`; and a Storage error on any
page the loop actually requests (offset 100·k, reached because every
earlier page was full) makes the whole call return nil. -/
theorem C9_getall_pagination (all : List MemoryUser) (failAt : Nat → Option SErr) :
    ((∀ off, failAt off = none) → Validator.getAllNoCache all failAt = some all) ∧
    (∀ k e, (∀ j, j < k → failAt (100 * j) = none) → failAt (100 * k) = some e →
      100 * k ≤ all.length → Validator.getAllNoCache all failAt = none) := by
  constructor
  · intro hfail
    have h := getAllLoop_no_fail all failAt hfail all.length 0 (by omega)
    rwa [List.drop_zero] at h
  · intro k e hpre hfa hlen
    exact getAllLoop_fail all failAt e k 0
      (by intro j hj; simpa using hpre j hj)
      (by simpa using hfa) (by omega)

/-- Witness for C9_getall_pagination: a store of 101 records with no
failures yields all 101; a store of 150 records whose second page
request (offset 100) fails yields nil. -/
theorem C9_getall_pagination_witness :
    (Validator.getAllNoCache (mkUsers 101) (fun _ => none) = some (mkUsers 101)) ∧
    ((mkUsers 101).length = 101) ∧
    (Validator.getAllNoCache (mkUsers 150) failAt100 = none) :=
  ⟨(C9_getall_pagination (mkUsers 101) (fun _ => none)).1 (fun _ => rfl),
   by simp [mkUsers],
   (C9_getall_pagination (mkUsers 150) failAt100).2 1 SErr.connection
     (by
       intro j hj
       have hj0 : j = 0 := by omega
       subst hj0
       rfl)
     (by rfl)
     (by simp [mkUsers])⟩

/-! ## Claim C3: capacity bound with LRU eviction -/

section AssocLemmas3

variable {κ : Type} {α : Type} [DecidableEq κ]

theorem alookup_aerase_of_none (l : List (κ × α)) (k x : κ)
    (h : alookup l x = none) : alookup (aerase l k) x = none := by
  by_cases hx : x = k
  · subst hx
    exact alookup_aerase_self l _
  · rw [alookup_aerase_ne l k x hx]
    exact h

end AssocLemmas3

theorem LRUManager.add_eq_none (lru : LRUManager) (key : String)
    (h : lru.head = none) :
    lru.add key =
      ({ head := some lru.fresh, tail := some lru.fresh,
         nodes := aset lru.nodes lru.fresh { key := key, prev := none, next := none },
         nodeMap := aset lru.nodeMap key lru.fresh,
         fresh := lru.fresh + 1 }, lru.fresh) := by
  unfold add
  rw [h]

theorem LRUManager.add_eq_some (lru : LRUManager) (key : String) (hh : Nat)
    (h : lru.head = some hh) :
    lru.add key =
      ({ head := some lru.fresh, tail := lru.tail,
         nodes := aupd (aset lru.nodes lru.fresh
                    { key := key, prev := none, next := some hh }) hh
                    (fun d => { d with prev := some lru.fresh }),
         nodeMap := aset lru.nodeMap key lru.fresh,
         fresh := lru.fresh + 1 }, lru.fresh) := by
  unfold add
  rw [h]

theorem SeqInv.step_noevict (now ttl m : Nat) (ps : List (String × MemoryUser))
    (id : String) (u : MemoryUser) (c : Cache)
    (h : SeqInv now ttl m ps c) (hid : id ∉ ps.map Prod.fst)
    (hklt : ps.length < m) :
    SeqInv now ttl m (ps ++ [(id, u)]) (c.set now id u) := by
  obtain ⟨httl, hmax, hm, hlen, hnodup, hexp, hres, hgone, habs, hfresh, hhead, htail,
    hnode, hnodehi⟩ := h
  have hidnone : alookup c.usersByID id = none := habs id hid
  have hidnotmem : id ∉ c.usersByID.map Prod.fst :=
    fun hmem => (alookup_ne_none_of_mem _ _ hmem) hidnone
  have hevict : c.evictIfFull = c := by
    unfold Cache.evictIfFull
    rw [if_neg]
    rintro ⟨hpos, hge⟩
    rw [hmax, hlen] at hge
    have hmm : (m : Int) ≤ (min ps.length m : Nat) := hge
    have : m ≤ min ps.length m := by exact_mod_cast hmm
    omega
  have husers : (c.set now id u).usersByID =
      aset c.usersByID id
        { user := u, expiresAt := now + ttl, lruNode := some ps.length } := by
    rw [Cache.set_usersByID, hevict, httl, hfresh]
  have hlru : (c.set now id u).lru = (c.lru.add id).1 := by
    rw [Cache.set_lru, hevict]
  have hget_lt : ∀ j, j < ps.length →
      (ps ++ [(id, u)]).get? j = ps.get? j := by
    intro j hj
    exact List.get?_append hj
  have hget_k : (ps ++ [(id, u)]).get? ps.length = some (id, u) :=
    List.get?_concat_length ps (id, u)
  have hlen' : (ps ++ [(id, u)]).length = ps.length + 1 := by simp
  have hbound : ∀ j (pj : String × MemoryUser),
      (ps ++ [(id, u)]).get? j = some pj → j < ps.length + 1 := by
    intro j pj hj
    by_contra hge2
    rw [List.get?_eq_none.mpr (by rw [hlen']; omega)] at hj
    cases hj
  refine ⟨?_, ?_, hm, ?_, ?_, ?_, ?_, ?_, ?_, ?_, ?_, ?_, ?_, ?_⟩
  · rw [Cache.set_ttl]
    exact httl
  · rw [Cache.set_maxSize]
    exact hmax
  · rw [husers, hlen', length_aset_of_not_mem _ _ _ hidnotmem, hlen]
    omega
  · rw [husers]
    exact nodup_aset _ _ _ hnodup
  · rw [husers]
    intro p hp
    rcases mem_of_mem_aset hp with hp | hp
    · exact hexp p hp
    · rw [hp]
  · -- residents
    intro j pj hj hge
    rw [husers]
    by_cases hjk : j = ps.length
    · subst hjk
      have hpj : pj = (id, u) := by
        rw [hget_k] at hj
        exact (Option.some.injEq _ _).mp hj.symm
      subst hpj
      exact alookup_aset_self _ _ _
    · have hjlt : j < ps.length := by
        have := hbound j pj hj
        omega
      rw [hget_lt j hjlt] at hj
      have hne : pj.1 ≠ id := by
        intro he
        exact hid (he ▸ List.mem_map_of_mem Prod.fst (List.get?_mem hj))
      rw [alookup_aset_ne _ _ _ _ hne]
      exact hres j pj hj (by omega)
  · -- no evicted entries
    intro j pj hj hlt
    rw [hlen'] at hlt
    omega
  · -- absent keys
    intro i hi
    rw [husers]
    have hi1 : i ∉ ps.map Prod.fst := by
      intro hmem
      exact hi (by simp [hmem])
    have hi2 : i ≠ id := by
      intro he
      exact hi (by simp [he])
    rw [alookup_aset_ne _ _ _ _ hi2]
    exact habs i hi1
  · rw [hlru, LRUManager.add_fresh, hfresh, hlen']
  · -- head
    rw [hlru, hlen']
    have hah : (c.lru.add id).1.head = some c.lru.fresh := by
      unfold LRUManager.add
      cases c.lru.head <;> rfl
    rw [hah, hfresh]
    simp
  · -- tail
    rw [hlru, hlen']
    by_cases hk0 : ps.length = 0
    · have hh : c.lru.head = none := by rw [hhead, if_pos hk0]
      rw [LRUManager.add_eq_none _ _ hh]
      simp only
      rw [hfresh, hk0]
      have h1 : 1 - m = 0 := by omega
      simp [h1]
    · have hh : c.lru.head = some (ps.length - 1) := by
        rw [hhead, if_neg hk0]
      rw [LRUManager.add_eq_some _ _ _ hh]
      simp only
      rw [htail, if_neg hk0]
      have h1 : ps.length - m = 0 := by omega
      have h2 : ps.length + 1 - m = 0 := by omega
      simp [h1, h2]
  · -- node characterisation
    intro j pj hj hge
    rw [hlru]
    have hjlt : j < ps.length + 1 := hbound j pj hj
    have hr' : (ps ++ [(id, u)]).length - m = 0 := by
      rw [hlen']
      omega
    by_cases hk0 : ps.length = 0
    · -- empty list: only j = 0
      have hh : c.lru.head = none := by rw [hhead, if_pos hk0]
      rw [LRUManager.add_eq_none _ _ hh]
      simp only
      have hj0 : j = 0 := by omega
      subst hj0
      have hpj : pj = (id, u) := by
        have hk := hget_k
        rw [hk0] at hk
        rw [hk] at hj
        exact (Option.some.injEq _ _).mp hj.symm
      subst hpj
      rw [hfresh, hk0]
      rw [alookup_aset_self]
      rw [hr', hlen', hk0]
      rfl
    · have hh : c.lru.head = some (ps.length - 1) := by
        rw [hhead, if_neg hk0]
      rw [LRUManager.add_eq_some _ _ _ hh]
      simp only
      rw [hfresh, alookup_aupd]
      have hr0 : ps.length - m = 0 := by omega
      by_cases hjk : j = ps.length
      · -- the new node
        subst hjk
        have hpj : pj = (id, u) := by
          rw [hget_k] at hj
          exact (Option.some.injEq _ _).mp hj.symm
        subst hpj
        rw [if_neg (show ¬ps.length = ps.length - 1 by omega)]
        rw [alookup_aset_self]
        rw [if_pos (show ps.length + 1 = (ps ++ [(id, u)]).length by rw [hlen'])]
        rw [if_neg (show ¬ps.length = (ps ++ [(id, u)]).length - m by
          rw [hlen']; omega)]
      · have hjlt : j < ps.length := by omega
        rw [hget_lt j hjlt] at hj
        by_cases hjk1 : j = ps.length - 1
        · -- old head: its prev pointer now points at the new node
          subst hjk1
          rw [if_pos rfl]
          rw [alookup_aset_ne _ _ _ _ (show ps.length - 1 ≠ ps.length by omega)]
          rw [hnode (ps.length - 1) pj hj (by omega)]
          rw [Option.map_some']
          rw [if_neg (show ¬(ps.length - 1 + 1 = (ps ++ [(id, u)]).length) by
            rw [hlen']; omega)]
          rw [hr0, hr']
          have hps : ps.length - 1 + 1 = ps.length := by omega
          rw [hps]
        · -- untouched middle nodes
          rw [if_neg hjk1]
          rw [alookup_aset_ne _ _ _ _ (show j ≠ ps.length by omega)]
          rw [hnode j pj hj (by omega)]
          rw [if_neg (show ¬(j + 1 = ps.length) by omega)]
          rw [if_neg (show ¬(j + 1 = (ps ++ [(id, u)]).length) by
            rw [hlen']; omega)]
          rw [hr0, hr']
  · -- nodes above the allocated range
    intro j hjge
    rw [hlru]
    rw [hlen'] at hjge
    by_cases hk0 : ps.length = 0
    · rw [LRUManager.add_eq_none _ _ (by rw [hhead, if_pos hk0])]
      simp only
      rw [hfresh, alookup_aset_ne _ _ _ _ (show j ≠ ps.length by omega)]
      exact hnodehi j (by omega)
    · rw [LRUManager.add_eq_some _ _ _ (by rw [hhead, if_neg hk0])]
      simp only
      rw [hfresh, alookup_aupd,
        if_neg (show ¬j = ps.length - 1 by omega),
        alookup_aset_ne _ _ _ _ (show j ≠ ps.length by omega)]
      exact hnodehi j (by omega)

theorem LRUManager.remove_tailnode (lru : LRUManager) (r : Nat) (key : String)
    (pf : Option Nat)
    (h : alookup lru.nodes r = some { key := key, prev := pf, next := none })
    (hpf : ∀ p, pf = some p → p ≠ r) :
    lru.remove (some r) =
      { lru with
        head := if lru.head = some r then none else lru.head,
        tail := if lru.tail = some r then pf else lru.tail,
        nodes := match pf with
          | some p => aupd lru.nodes p (fun d => { d with next := none })
          | none => lru.nodes,
        nodeMap := aerase lru.nodeMap key } := by
  simp only [remove, h]
  cases pf with
  | none =>
    simp only [h, Option.getD_some]
  | some p =>
    have hne : r ≠ p := fun he => hpf p rfl he.symm
    simp only [alookup_aupd, if_neg hne, h, Option.getD_some]

theorem SeqInv.step_evict (now ttl m : Nat) (ps : List (String × MemoryUser))
    (id : String) (u : MemoryUser) (c : Cache)
    (h : SeqInv now ttl m ps c) (hid : id ∉ ps.map Prod.fst)
    (hkge : m ≤ ps.length) :
    SeqInv now ttl m (ps ++ [(id, u)]) (c.set now id u) := by
  obtain ⟨httl, hmax, hm, hlen, hnodup, hexp, hres, hgone, habs, hfresh, hhead, htail,
    hnode, hnodehi⟩ := h
  have hk0 : ¬ps.length = 0 := by omega
  have hidnone : alookup c.usersByID id = none := habs id hid
  have hidnotmem : id ∉ c.usersByID.map Prod.fst :=
    fun hmem => (alookup_ne_none_of_mem _ _ hmem) hidnone
  obtain ⟨pr, hpr⟩ : ∃ pr, ps.get? (ps.length - m) = some pr := by
    rcases hx : ps.get? (ps.length - m) with _ | pr
    · rw [List.get?_eq_none] at hx
      omega
    · exact ⟨pr, rfl⟩
  have hentry := hres (ps.length - m) pr hpr le_rfl
  have hnd0 := hnode (ps.length - m) pr hpr le_rfl
  rw [if_pos rfl] at hnd0
  have hkeydist : ∀ j pj, ps.get? j = some pj → ps.length - m ≤ j →
      pj.1 = pr.1 → j = ps.length - m := by
    intro j pj hj hge he
    have h1 := hres j pj hj hge
    rw [he, hentry] at h1
    have h2 := (Option.some.injEq _ _).mp h1
    have h3 := congrArg UserEntry.lruNode h2
    simpa using h3.symm
  have hcond : c.maxSize > 0 ∧ (c.usersByID.length : Int) ≥ c.maxSize := by
    constructor
    · rw [hmax]
      exact_mod_cast hm
    · rw [hmax, hlen]
      have hminm : min ps.length m = m := by omega
      rw [hminm]
  have hremT : c.lru.removeTail = c.lru.remove (some (ps.length - m)) := by
    unfold LRUManager.removeTail
    rw [htail, if_neg hk0]
  have hevict : c.evictIfFull =
      { c with usersByID := aerase c.usersByID pr.1,
               usersByEmail := aerase c.usersByEmail pr.2.email,
               lru := c.lru.removeTail } := by
    unfold Cache.evictIfFull
    rw [if_pos hcond, htail, if_neg hk0]
    simp only [hnd0, hentry]
  have hfreshT : c.evictIfFull.lru.fresh = ps.length := by
    rw [hevict]
    show c.lru.removeTail.fresh = ps.length
    rw [LRUManager.removeTail_fresh, hfresh]
  have husers : (c.set now id u).usersByID =
      aset (aerase c.usersByID pr.1) id
        { user := u, expiresAt := now + ttl, lruNode := some ps.length } := by
    rw [Cache.set_usersByID, httl, hfreshT, hevict]
  have hlru2 : (c.set now id u).lru =
      ((c.lru.remove (some (ps.length - m))).add id).1 := by
    rw [Cache.set_lru, hevict]
    show (c.lru.removeTail.add id).1 = _
    rw [hremT]
  have hget_lt : ∀ j, j < ps.length →
      (ps ++ [(id, u)]).get? j = ps.get? j := by
    intro j hj
    exact List.get?_append hj
  have hget_k : (ps ++ [(id, u)]).get? ps.length = some (id, u) :=
    List.get?_concat_length ps (id, u)
  have hlen' : (ps ++ [(id, u)]).length = ps.length + 1 := by simp
  have hbound : ∀ j (pj : String × MemoryUser),
      (ps ++ [(id, u)]).get? j = some pj → j < ps.length + 1 := by
    intro j pj hj
    by_contra hge2
    rw [List.get?_eq_none.mpr (by rw [hlen']; omega)] at hj
    cases hj
  have hiderase : id ∉ (aerase c.usersByID pr.1).map Prod.fst :=
    fun hmem => hidnotmem ((map_fst_aerase_sublist _ _).subset hmem)
  have hprne : alookup c.usersByID pr.1 ≠ none := by
    rw [hentry]
    intro hx
    cases hx
  have hrem1 : m = 1 → c.lru.remove (some (ps.length - m)) =
      { c.lru with head := none, tail := none,
                   nodeMap := aerase c.lru.nodeMap pr.1 } := by
    intro hm1
    rw [if_pos (show ps.length - m + 1 = ps.length by omega)] at hnd0
    rw [LRUManager.remove_tailnode c.lru (ps.length - m) pr.1 none hnd0
      (by intro p hp; exact Option.noConfusion hp)]
    rw [hhead, htail]
    simp only [if_neg hk0]
    rw [hm1]
    simp
  have hrem2 : 2 ≤ m → c.lru.remove (some (ps.length - m)) =
      { c.lru with head := some (ps.length - 1),
                   tail := some (ps.length - m + 1),
                   nodes := aupd c.lru.nodes (ps.length - m + 1)
                     (fun d => { d with next := none }),
                   nodeMap := aerase c.lru.nodeMap pr.1 } := by
    intro hm2
    rw [if_neg (show ¬(ps.length - m + 1 = ps.length) by omega)] at hnd0
    rw [LRUManager.remove_tailnode c.lru (ps.length - m) pr.1
      (some (ps.length - m + 1)) hnd0
      (by intro p hp he; injection hp with hh; omega)]
    rw [hhead, htail]
    simp only [if_neg hk0]
    rw [if_neg (show ¬(some (ps.length - 1) = some (ps.length - m)) by
      intro hx; injection hx with hx2; omega)]
    simp
  refine ⟨?_, ?_, hm, ?_, ?_, ?_, ?_, ?_, ?_, ?_, ?_, ?_, ?_, ?_⟩
  · rw [Cache.set_ttl]
    exact httl
  · rw [Cache.set_maxSize]
    exact hmax
  · rw [husers, hlen', length_aset_of_not_mem _ _ _ hiderase,
      length_aerase_of_nodup _ _ hnodup hprne, hlen]
    omega
  · rw [husers]
    exact nodup_aset _ _ _ (nodup_aerase _ _ hnodup)
  · rw [husers]
    intro p hp
    rcases mem_of_mem_aset hp with hp | hp
    · exact hexp p (mem_of_mem_aerase hp)
    · rw [hp]
  · -- residents
    intro j pj hj hge
    rw [husers]
    rw [hlen'] at hge
    by_cases hjk : j = ps.length
    · subst hjk
      have hpj : pj = (id, u) := by
        rw [hget_k] at hj
        exact (Option.some.injEq _ _).mp hj.symm
      subst hpj
      exact alookup_aset_self _ _ _
    · have hjlt : j < ps.length := by
        have := hbound j pj hj
        omega
      rw [hget_lt j hjlt] at hj
      have hne : pj.1 ≠ id := by
        intro he
        exact hid (he ▸ List.mem_map_of_mem Prod.fst (List.get?_mem hj))
      have hnepr : pj.1 ≠ pr.1 := by
        intro he
        have := hkeydist j pj hj (by omega) he
        omega
      rw [alookup_aset_ne _ _ _ _ hne, alookup_aerase_ne _ _ _ hnepr]
      exact hres j pj hj (by omega)
  · -- evicted entries are gone
    intro j pj hj hlt
    rw [husers]
    rw [hlen'] at hlt
    have hjlt : j < ps.length := by omega
    rw [hget_lt j hjlt] at hj
    have hne : pj.1 ≠ id := by
      intro he
      exact hid (he ▸ List.mem_map_of_mem Prod.fst (List.get?_mem hj))
    rw [alookup_aset_ne _ _ _ _ hne]
    by_cases hjr : j = ps.length - m
    · subst hjr
      have hpj : pj = pr := by
        rw [hpr] at hj
        exact (Option.some.injEq _ _).mp hj.symm
      subst hpj
      exact alookup_aerase_self _ _
    · exact alookup_aerase_of_none _ _ _ (hgone j pj hj (by omega))
  · -- absent keys
    intro i hi
    rw [husers]
    have hi1 : i ∉ ps.map Prod.fst := by
      intro hmem
      exact hi (by simp [hmem])
    have hi2 : i ≠ id := by
      intro he
      exact hi (by simp [he])
    rw [alookup_aset_ne _ _ _ _ hi2]
    exact alookup_aerase_of_none _ _ _ (habs i hi1)
  · -- fresh
    rw [hlru2, LRUManager.add_fresh, LRUManager.remove_fresh, hfresh, hlen']
  · -- head
    rw [hlru2]
    by_cases hm1 : m = 1
    · rw [hrem1 hm1, LRUManager.add_eq_none _ _ rfl]
      dsimp only
      rw [hfresh, hlen']
      rw [if_neg (show ¬ps.length + 1 = 0 by omega)]
      have harg : ps.length + 1 - 1 = ps.length := by omega
      rw [harg]
    · have hm2 : 2 ≤ m := by omega
      rw [hrem2 hm2, LRUManager.add_eq_some _ _ (ps.length - 1) rfl]
      dsimp only
      rw [hfresh, hlen']
      rw [if_neg (show ¬ps.length + 1 = 0 by omega)]
      have harg : ps.length + 1 - 1 = ps.length := by omega
      rw [harg]
  · -- tail
    rw [hlru2]
    by_cases hm1 : m = 1
    · rw [hrem1 hm1, LRUManager.add_eq_none _ _ rfl]
      dsimp only
      rw [hfresh, hlen']
      rw [if_neg (show ¬ps.length + 1 = 0 by omega)]
      have harg : ps.length + 1 - m = ps.length := by omega
      rw [harg]
    · have hm2 : 2 ≤ m := by omega
      rw [hrem2 hm2, LRUManager.add_eq_some _ _ (ps.length - 1) rfl]
      dsimp only
      rw [hlen']
      rw [if_neg (show ¬ps.length + 1 = 0 by omega)]
      have harg : ps.length + 1 - m = ps.length - m + 1 := by omega
      rw [harg]
  · -- node characterisation
    intro j pj hj hge
    rw [hlen'] at hge
    have hjlt : j < ps.length + 1 := hbound j pj hj
    rw [hlru2]
    by_cases hm1 : m = 1
    · rw [hrem1 hm1, LRUManager.add_eq_none _ _ rfl]
      dsimp only
      rw [hfresh]
      have hj_k : j = ps.length := by omega
      subst hj_k
      have hpj : pj = (id, u) := by
        rw [hget_k] at hj
        exact (Option.some.injEq _ _).mp hj.symm
      subst hpj
      rw [alookup_aset_self]
      rw [if_pos (show ps.length + 1 = (ps ++ [(id, u)]).length by rw [hlen'])]
      rw [if_pos (show ps.length = (ps ++ [(id, u)]).length - m by
        rw [hlen']; omega)]
    · have hm2 : 2 ≤ m := by omega
      rw [hrem2 hm2, LRUManager.add_eq_some _ _ (ps.length - 1) rfl]
      dsimp only
      rw [hfresh, alookup_aupd]
      by_cases hjk : j = ps.length
      · -- the freshly added node
        subst hjk
        have hpj : pj = (id, u) := by
          rw [hget_k] at hj
          exact (Option.some.injEq _ _).mp hj.symm
        subst hpj
        rw [if_neg (show ¬ps.length = ps.length - 1 by omega)]
        rw [alookup_aset_self]
        rw [if_pos (show ps.length + 1 = (ps ++ [(id, u)]).length by rw [hlen'])]
        rw [if_neg (show ¬ps.length = (ps ++ [(id, u)]).length - m by
          rw [hlen']; omega)]
      · have hjlt2 : j < ps.length := by omega
        rw [hget_lt j hjlt2] at hj
        by_cases hjk1 : j = ps.length - 1
        · -- the old head: prev now points at the new node
          subst hjk1
          rw [if_pos rfl]
          rw [alookup_aset_ne _ _ _ _ (show ps.length - 1 ≠ ps.length by omega)]
          rw [alookup_aupd]
          by_cases hm2e : ps.length - 1 = ps.length - m + 1
          · -- m = 2: the old head is also the new tail
            rw [if_pos hm2e, ← hm2e]
            rw [hnode (ps.length - 1) pj hj (by omega)]
            rw [Option.map_some', Option.map_some']
            rw [if_neg (show ¬(ps.length - 1 + 1 = (ps ++ [(id, u)]).length) by
              rw [hlen']; omega)]
            rw [if_pos (show ps.length - 1 = (ps ++ [(id, u)]).length - m by
              rw [hlen']; omega)]
            have harg : ps.length - 1 + 1 = ps.length := by omega
            rw [harg]
          · rw [if_neg hm2e]
            rw [hnode (ps.length - 1) pj hj (by omega)]
            rw [Option.map_some']
            rw [if_neg (show ¬(ps.length - 1 + 1 = (ps ++ [(id, u)]).length) by
              rw [hlen']; omega)]
            rw [if_neg (show ¬(ps.length - 1 = (ps ++ [(id, u)]).length - m) by
              rw [hlen']; omega)]
            rw [if_pos (show ps.length - 1 + 1 = ps.length by omega)]
            rw [if_neg (show ¬(ps.length - 1 = ps.length - m) by omega)]
            have harg : ps.length - 1 + 1 = ps.length := by omega
            rw [harg]
        · -- nodes below the old head
          rw [if_neg hjk1]
          rw [alookup_aset_ne _ _ _ _ (show j ≠ ps.length by omega)]
          rw [alookup_aupd]
          by_cases hjr1 : j = ps.length - m + 1
          · -- the new tail
            rw [if_pos hjr1, ← hjr1]
            rw [hnode j pj hj (by omega)]
            rw [Option.map_some']
            rw [if_neg (show ¬(j + 1 = ps.length) by omega)]
            rw [if_neg (show ¬(j = ps.length - m) by omega)]
            rw [if_neg (show ¬(j + 1 = (ps ++ [(id, u)]).length) by
              rw [hlen']; omega)]
            rw [if_pos (show j = (ps ++ [(id, u)]).length - m by
              rw [hlen']; omega)]
          · -- untouched middle nodes
            rw [if_neg hjr1]
            rw [hnode j pj hj (by omega)]
            rw [if_neg (show ¬(j + 1 = ps.length) by omega)]
            rw [if_neg (show ¬(j = ps.length - m) by omega)]
            rw [if_neg (show ¬(j + 1 = (ps ++ [(id, u)]).length) by
              rw [hlen']; omega)]
            rw [if_neg (show ¬(j = (ps ++ [(id, u)]).length - m) by
              rw [hlen']; omega)]
  · -- nodes above the allocated range
    intro j hjge
    rw [hlen'] at hjge
    rw [hlru2]
    by_cases hm1 : m = 1
    · rw [hrem1 hm1, LRUManager.add_eq_none _ _ rfl]
      dsimp only
      rw [hfresh, alookup_aset_ne _ _ _ _ (show j ≠ ps.length by omega)]
      exact hnodehi j (by omega)
    · have hm2 : 2 ≤ m := by omega
      rw [hrem2 hm2, LRUManager.add_eq_some _ _ (ps.length - 1) rfl]
      dsimp only
      rw [hfresh, alookup_aupd, if_neg (show ¬j = ps.length - 1 by omega),
        alookup_aset_ne _ _ _ _ (show j ≠ ps.length by omega), alookup_aupd,
        if_neg (show ¬j = ps.length - m + 1 by omega)]
      exact hnodehi j (by omega)

theorem SeqInv.base (now ttl m : Nat) (hm : 0 < m) :
    SeqInv now ttl m [] (Cache.mkNew ttl (m : Int)) := by
  refine ⟨rfl, rfl, hm, ?_, ?_, ?_, ?_, ?_, ?_, rfl, rfl, rfl, ?_, ?_⟩
  · simp [Cache.mkNew]
  · simp [Cache.mkNew]
  · intro p hp
    simp [Cache.mkNew] at hp
  · intro j pj hj
    simp at hj
  · intro j pj hj
    simp at hj
  · intro i _
    rfl
  · intro j pj hj
    simp at hj
  · intro j _
    rfl

theorem SeqInv.step (now ttl m : Nat) (ps : List (String × MemoryUser))
    (id : String) (u : MemoryUser) (c : Cache)
    (h : SeqInv now ttl m ps c) (hid : id ∉ ps.map Prod.fst) :
    SeqInv now ttl m (ps ++ [(id, u)]) (c.set now id u) := by
  by_cases hlt : ps.length < m
  · exact SeqInv.step_noevict now ttl m ps id u c h hid hlt
  · exact SeqInv.step_evict now ttl m ps id u c h hid (by omega)

theorem seqInv_insertAll (now ttl m : Nat) (hm : 0 < m) :
    ∀ (ps2 ps1 : List (String × MemoryUser)) (c : Cache),
      SeqInv now ttl m ps1 c →
      (((ps1 ++ ps2).map Prod.fst).Nodup) →
      SeqInv now ttl m (ps1 ++ ps2) (insertAll c now ps2) := by
  intro ps2
  induction ps2 with
  | nil =>
    intro ps1 c h _
    simpa [insertAll] using h
  | cons p ps2 ih =>
    intro ps1 c h hnd
    have hid : p.1 ∉ ps1.map Prod.fst := by
      intro hmem
      rw [List.map_append] at hnd
      obtain ⟨h1, h2, hdis⟩ := List.nodup_append.mp hnd
      exact (hdis hmem) (by simp)
    have hstep := SeqInv.step now ttl m ps1 p.1 p.2 c h hid
    have hres := ih (ps1 ++ [p]) (c.set now p.1 p.2) hstep
      (by simpa [List.append_assoc] using hnd)
    simpa [insertAll, List.append_assoc] using hres

theorem seqInv_of_insertAll (now ttl m : Nat) (hm : 0 < m)
    (ps : List (String × MemoryUser)) (hnd : (ps.map Prod.fst).Nodup) :
    SeqInv now ttl m ps (insertAll (Cache.mkNew ttl (m : Int)) now ps) := by
  have h := seqInv_insertAll now ttl m hm ps [] (Cache.mkNew ttl (m : Int))
    (SeqInv.base now ttl m hm) (by simpa using hnd)
  simpa using h

/-- C3: capacity bound with LRU eviction. From an empty cache with
maximum size n > 0, inserting n+1 records with pairwise distinct
identifiers leaves exactly n resident (so at most n), the evicted record
is the least-recently-touched one — the first inserted — and every later
record is still found; and with maximum size 0 the cache is unbounded:
Set never evicts (every other resident key is untouched, on any cache). -/
theorem C3_capacity_lru_eviction (now ttl n : Nat) (hn : 0 < n)
    (ps : List (String × MemoryUser)) (hlen : ps.length = n + 1)
    (hnd : (ps.map Prod.fst).Nodup) :
    ((insertAll (Cache.mkNew ttl (n : Int)) now ps).getCount now = (n : Int)) ∧
    (∀ p0, ps.get? 0 = some p0 →
      ((insertAll (Cache.mkNew ttl (n : Int)) now ps).get now p0.1).1 = none) ∧
    (∀ j pj, 1 ≤ j → ps.get? j = some pj →
      ((insertAll (Cache.mkNew ttl (n : Int)) now ps).get now pj.1).1 = some pj.2) ∧
    (∀ (c : Cache) (id i : String) (u : MemoryUser), c.maxSize = 0 → i ≠ id →
      alookup (c.set now id u).usersByID i = alookup c.usersByID i) := by
  obtain ⟨httlI, hmaxI, hmI, hlenI, hnodupI, hexpI, hresI, hgoneI, habsI, _, _, _, _, _⟩ :=
    seqInv_of_insertAll now ttl n hn ps hnd
  refine ⟨?_, ?_, ?_, ?_⟩
  · unfold Cache.getCount
    have hfilt : (insertAll (Cache.mkNew ttl (n : Int)) now ps).usersByID.filter
        (fun p => now ≤ p.2.expiresAt) =
        (insertAll (Cache.mkNew ttl (n : Int)) now ps).usersByID := by
      apply List.filter_eq_self.mpr
      intro p hp
      have he := hexpI p hp
      simp [he]
    rw [hfilt, hlenI, hlen]
    have hmin : min (n + 1) n = n := by omega
    rw [hmin]
  · intro p0 hp0
    have h0 := hgoneI 0 p0 hp0 (by omega)
    rw [Cache.get_absent h0]
  · intro j pj hj1 hj
    have hjlt : j < ps.length := by
      by_contra hge
      rw [List.get?_eq_none.mpr (by omega)] at hj
      cases hj
    have hr := hresI j pj hj (by omega)
    exact Cache.get_live hr (show ¬now > now + ttl by omega)
  · intro c idv i uv hmax0 hne
    rw [Cache.set_usersByID, alookup_aset_ne _ _ _ _ hne]
    have hev : c.evictIfFull = c := by
      unfold Cache.evictIfFull
      rw [if_neg]
      rintro ⟨hpos, _⟩
      rw [hmax0] at hpos
      exact lt_irrefl _ hpos
    rw [hev]

/-- Witness for C3_capacity_lru_eviction: TTL 5, maxSize 2, inserting
three distinct records a, b, c in order; the count is 2, record a is
gone, records b and c are found. -/
theorem C3_capacity_lru_eviction_witness :
    ((insertAll (Cache.mkNew 5 (2 : Int)) 0 c3ps).getCount 0 = (2 : Int)) ∧
    (((insertAll (Cache.mkNew 5 (2 : Int)) 0 c3ps).get 0 "a").1 = none) ∧
    (((insertAll (Cache.mkNew 5 (2 : Int)) 0 c3ps).get 0 "b").1
       = some (vuser "b" "e2")) ∧
    (((insertAll (Cache.mkNew 5 (2 : Int)) 0 c3ps).get 0 "c").1
       = some (vuser "c" "e3")) :=
  ⟨(C3_capacity_lru_eviction 0 5 2 (by decide) c3ps rfl (by decide)).1,
   (C3_capacity_lru_eviction 0 5 2 (by decide) c3ps rfl (by decide)).2.1
     ("a", vuser "a" "e1") rfl,
   (C3_capacity_lru_eviction 0 5 2 (by decide) c3ps rfl (by decide)).2.2.1
     1 ("b", vuser "b" "e2") (by decide) rfl,
   (C3_capacity_lru_eviction 0 5 2 (by decide) c3ps rfl (by decide)).2.2.1
     2 ("c", vuser "c" "e3") (by decide) rfl⟩
